import Mathlib

/-!
# Verification of the rustedrazors SPSC latest-value exchanges

Shallow embedding of the four single-producer/single-consumer "latest value"
exchange variants of the rustedrazors crate:

* `src/src/atomic_spsc.rs`   — wait-free pool rotation, `POOL_SIZE = 3`;
* `src/src/blocking_spsc.rs` — bounded-spin pool rotation, `POOL_SIZE = 2`;
* `src/src/mutex_spsc.rs`    — one cell behind `std::sync::Mutex` plus an
  `AtomicBool` unread flag;
* `src/src/ticket_spsc.rs`   — the same single-cell design behind a
  hand-rolled ticket lock (`TicketMutex`).

The file contains

1. sequential (single-thread, operations run to completion one after the
   other) embeddings of every variant's `Inner` operations, used for the
   purely sequential claims;
2. an abstract "latest value" reference machine (`Abs`), together with
   simulation lemmas showing each variant refines it sequentially;
3. fine-grained interleaved small-step models of the pool-rotation variants
   (one writer thread, one reader thread, every atomic instruction of the
   source is one step) and of the single-buffer variants, used for the
   concurrency/invariant claims;
4. a two-client small-step model of `TicketMutex`;
5. a poisoning model of `std::sync::Mutex` for the failure-semantics claim.

Machine integers: the Rust code stores the published pool index in an
`AtomicIsize` that is documented ("either -1 or in [0, POOL_SIZE)") to be
either the sentinel `-1` or a valid index; it is modelled as
`Option (Fin n)`, `none` standing for `-1`.  The `u64` ticket counters of
`TicketMutex` are modelled as `Nat` reduced `% 2^64` exactly where the
`u64` arithmetic wraps.
-/

namespace RustedRazors

/-- One public operation of an exchange: the writer's `write(v)` or the
reader's `read()`. -/
inductive Op (T : Type) where
  | write (v : T)
  | read
deriving DecidableEq

/-- The values passed to `write` calls in a list of operations, in order. -/
def writtenVals {T : Type} : List (Op T) → List T
  | [] => []
  | Op.write v :: rest => v :: writtenVals rest
  | Op.read :: rest => writtenVals rest

theorem writtenVals_append {T : Type} (l₁ l₂ : List (Op T)) :
    writtenVals (l₁ ++ l₂) = writtenVals l₁ ++ writtenVals l₂ := by
  induction l₁ with
  | nil => rfl
  | cons op rest ih => cases op <;> simp [writtenVals, ih]

/-! ## The abstract latest-value machine

The common external semantics of all four variants (spec §4.1): the state is
the not-yet-consumed published value, if any.  `write v` overwrites it with
`v`; `read` consumes it. -/

namespace Abs

/-- Abstract state: the published, not yet consumed value (or nothing). -/
def State (T : Type) := Option T

/-- Effect of one operation on the abstract state: a write publishes its
value (overwriting any pending one), a read consumes whatever is pending. -/
def step {T : Type} (_p : Option T) : Op T → Option T
  | Op.write v => some v
  | Op.read => none

/-- Run a list of operations on the abstract machine. -/
def run {T : Type} (p : Option T) (ops : List (Op T)) : Option T :=
  ops.foldl step p

@[simp] theorem run_nil {T : Type} (p : Option T) : run p [] = p := rfl

@[simp] theorem run_cons {T : Type} (p : Option T) (op : Op T) (ops : List (Op T)) :
    run p (op :: ops) = run (step p op) ops := rfl

theorem run_append {T : Type} (p : Option T) (l₁ l₂ : List (Op T)) :
    run p (l₁ ++ l₂) = run (run p l₁) l₂ := by
  simp [run, List.foldl_append]

@[simp] theorem run_write {T : Type} (p : Option T) (v : T) (ops : List (Op T)) :
    run p (Op.write v :: ops) = run (some v) ops := rfl

@[simp] theorem run_read {T : Type} (p : Option T) (ops : List (Op T)) :
    run p (Op.read :: ops) = run (none : Option T) ops := rfl

/-- Every value the abstract machine can hold after running `ops` from `p`
was either already pending in `p` or was passed to one of the writes of
`ops`: the machine never fabricates a value. -/
theorem run_mem {T : Type} (p : Option T) (ops : List (Op T)) (w : T)
    (h : run p ops = some w) : p = some w ∨ w ∈ writtenVals ops := by
  induction ops generalizing p with
  | nil => exact Or.inl h
  | cons op rest ih =>
    cases op with
    | write v =>
      rcases ih (some v) h with hv | hmem
      · exact Or.inr (by simp [writtenVals, Option.some_inj.mp hv])
      · exact Or.inr (by simp [writtenVals, hmem])
    | read =>
      rcases ih none h with hv | hmem
      · exact absurd hv (by simp)
      · exact Or.inr (by simp [writtenVals, hmem])

/-- After a block of writes ending in `write vn`, the pending value is
exactly `vn` (last-write-wins). -/
theorem run_writes_last {T : Type} (p : Option T) (vs : List T) (vn : T) :
    run p ((vs.map Op.write) ++ [Op.write vn]) = some vn := by
  rw [run_append]
  rfl

/-- The condition of the emptiness claim, stated over the trace: either no
write was ever performed, or there is a successful read (successful = the
abstract machine was holding a value just before it) after which no write
occurs. -/
def NoWriteSince {T : Type} (ops : List (Op T)) : Prop :=
  (∀ v : T, Op.write v ∉ ops) ∨
    ∃ l₁ l₂ : List (Op T), ops = l₁ ++ Op.read :: l₂ ∧
      run (none : Option T) l₁ ≠ none ∧ ∀ v : T, Op.write v ∉ l₂

/-- A trace ending in a write cannot satisfy `NoWriteSince`. -/
theorem not_noWriteSince_concat_write {T : Type} (ops : List (Op T)) (v : T) :
    ¬ NoWriteSince (ops ++ [Op.write v]) := by
  rintro (hnone | ⟨l₁, l₂, heq, -, hl₂⟩)
  · exact hnone v (by simp)
  · rcases List.eq_nil_or_concat l₂ with h2 | ⟨l₂', a, rfl⟩
    · subst h2
      have := congrArg (fun l => l.getLast?) heq
      simp [List.getLast?_append] at this
    · have heq' : ops ++ [Op.write v] = (l₁ ++ Op.read :: l₂') ++ [a] := by
        simpa using heq
      have ha : [Op.write v] = [a] :=
        (List.append_inj' heq' rfl).2
      have ha' : a = Op.write v := by simpa using ha.symm
      refine hl₂ v ?_
      rw [ha']
      simp

/-- The core of the emptiness claim, at the abstract level: after any trace,
the machine is empty (the next read would report "nothing new") if and only
if no write has been performed since construction or since the most recent
successful read. -/
theorem run_eq_none_iff {T : Type} (ops : List (Op T)) :
    run (none : Option T) ops = none ↔ NoWriteSince ops := by
  induction ops using List.reverseRecOn with
  | nil =>
    exact iff_of_true rfl (Or.inl (by simp))
  | append_singleton ops op ih =>
    cases op with
    | write v =>
      rw [run_append]
      exact iff_of_false (by simp [run, step]) (not_noWriteSince_concat_write ops v)
    | read =>
      rw [run_append]
      refine iff_of_true (by simp [run, step]) ?_
      by_cases hp : run (none : Option T) ops = none
      · rcases ih.mp hp with hnone | ⟨l₁, l₂, heq, hne, hl₂⟩
        · refine Or.inl ?_
          intro v hv
          rcases List.mem_append.mp hv with h | h
          · exact hnone v h
          · simp at h
        · refine Or.inr ⟨l₁, l₂ ++ [Op.read], by simp [heq], hne, ?_⟩
          intro v hv
          rcases List.mem_append.mp hv with h | h
          · exact hl₂ v h
          · simp at h
      · exact Or.inr ⟨ops, [], rfl, hp, by simp⟩

end Abs

/-! ## Sequential embedding of the pool-rotation variants

The bodies of `src/src/atomic_spsc.rs` and `src/src/blocking_spsc.rs` are
identical except for `POOL_SIZE` (3 versus 2) and the handling of an
exhausted free-flag scan during `acquire`: `atomic_spsc` hits
`unreachable!()` (a crash), `blocking_spsc` retries the scan forever (a
sequential caller would spin forever, since no other thread can free a
cell).  Run sequentially (the mode of the purely functional claims), both
failure modes mean the `write` call never returns normally, so a single
`Option`-valued embedding, parametric in the pool size `n`, covers both
files; `none` is the never-returns outcome. -/

namespace Pool

/-- The shared state of the pool-rotation variants
(`struct Inner<T> { pool, free, buffer }` of `atomic_spsc.rs` lines 10-15 and
`blocking_spsc.rs` lines 9-14).  The `AtomicIsize` field `buffer`
("either -1 or in [0, POOL_SIZE)") is modelled as `Option (Fin n)`. -/
structure Inner (n : Nat) (T : Type) where
  pool : Fin n → T
  free : Fin n → Bool
  buffer : Option (Fin n)

/-- `Inner::new(init)` (`atomic_spsc.rs` lines 49-55, `blocking_spsc.rs`
lines 33-39): every cell holds a clone of `init`, every free flag is true,
and `buffer` is the `-1` sentinel. -/
def Inner.new (n : Nat) {T : Type} (init : T) : Inner n T :=
  { pool := fun _ => init, free := fun _ => true, buffer := none }

/-- `Inner::acquire` (`atomic_spsc.rs` lines 104-112, `blocking_spsc.rs`
lines 92-100): scan the free flags in index order and claim the first one
found true.  Sequentially the `swap(false)` on an already-false flag leaves
the state unchanged, so the scan is the first index whose flag is true;
`none` is the fall-through (the `unreachable!()` of `atomic_spsc`,
the `-1` return of `blocking_spsc`). -/
def Inner.acquire {n : Nat} {T : Type} (s : Inner n T) : Option (Fin n) :=
  (List.finRange n).find? fun i => s.free i

/-- `Inner::write_to` (`atomic_spsc.rs` lines 70-75, `blocking_spsc.rs`
lines 63-66): store `value` into cell `idx`. -/
def Inner.write_to {n : Nat} {T : Type} (s : Inner n T) (idx : Fin n) (value : T) :
    Inner n T :=
  { s with pool := Function.update s.pool idx value }

/-- `Inner::read_from` (`atomic_spsc.rs` lines 95-100, `blocking_spsc.rs`
lines 86-89): clone the value out of cell `idx`. -/
def Inner.read_from {n : Nat} {T : Type} (s : Inner n T) (idx : Fin n) : T :=
  s.pool idx

/-- `Inner::release` (`atomic_spsc.rs` lines 115-117, `blocking_spsc.rs`
lines 103-105): mark cell `idx` free again. -/
def Inner.release {n : Nat} {T : Type} (s : Inner n T) (idx : Fin n) : Inner n T :=
  { s with free := Function.update s.free idx true }

/-- `Inner::write` (`atomic_spsc.rs` lines 60-68, `blocking_spsc.rs` lines
44-61): acquire a free cell, store the value into it, swap `buffer` to its
index capturing the previous index, and release the previous cell if it was
not the sentinel.  `none` means `acquire` found no free cell, in which case
`atomic_spsc` crashes on `unreachable!()` and a sequential `blocking_spsc`
writer retries forever. -/
def Inner.write {n : Nat} {T : Type} (value : T) (s : Inner n T) : Option (Inner n T) :=
  match s.acquire with
  | none => none
  | some idx =>
    let s₁ : Inner n T := { s with free := Function.update s.free idx false }
    let s₂ : Inner n T := s₁.write_to idx value
    let prev := s₂.buffer
    let s₃ : Inner n T := { s₂ with buffer := some idx }
    some (match prev with
          | none => s₃
          | some b => s₃.release b)

/-- `Inner::read` (`atomic_spsc.rs` lines 81-93, `blocking_spsc.rs` lines
72-84): swap `buffer` with the sentinel; on the sentinel report nothing,
otherwise clone the cell's value, release the cell and report the value. -/
def Inner.read {n : Nat} {T : Type} (s : Inner n T) : Option T × Inner n T :=
  match s.buffer with
  | none => (none, { s with buffer := none })
  | some b => (some (s.read_from b), Inner.release { s with buffer := none } b)

/-- Sequential execution of a list of operations; `none` if some `write`
never returns (impossible from reachable states, as proved below). -/
def Inner.runState {n : Nat} {T : Type} (s : Inner n T) : List (Op T) → Option (Inner n T)
  | [] => some s
  | Op.write v :: rest => (Inner.write v s).bind fun s' => s'.runState rest
  | Op.read :: rest => (s.read).2.runState rest

/-- Sequentially reachable states: results of running some operation list
from `Inner::new(init)` with every `write` returning. -/
def Reachable (n : Nat) {T : Type} (init : T) (s : Inner n T) : Prop :=
  ∃ ops : List (Op T), (Inner.new n init).runState ops = some s

/-- The sequential invariant of the pool: a cell's free flag is false
exactly when the cell is the published one. -/
def SeqInv {n : Nat} {T : Type} (s : Inner n T) : Prop :=
  ∀ i : Fin n, s.free i = false ↔ s.buffer = some i

/-- Abstraction to the latest-value machine: the pending value is the
content of the published cell. -/
def abs {n : Nat} {T : Type} (s : Inner n T) : Option T :=
  s.buffer.map s.pool

theorem abs_new (n : Nat) {T : Type} (init : T) : abs (Inner.new n init) = none := rfl

theorem seqInv_new (n : Nat) {T : Type} (init : T) : SeqInv (Inner.new n init) := by
  intro i
  simp [Inner.new, SeqInv]

/-- Under the invariant a scan finds a free cell whenever one exists; with
`2 ≤ n` at most one cell (the published one) is unfree, so one always
exists. -/
theorem acquire_isSome {n : Nat} {T : Type} (s : Inner n T) (hn : 2 ≤ n)
    (hinv : SeqInv s) : ∃ idx, s.acquire = some idx ∧ s.free idx = true := by
  have hex : ∃ i ∈ List.finRange n, s.free i = true := by
    cases hb : s.buffer with
    | none =>
      have h0 : (0 : Nat) < n := by omega
      refine ⟨⟨0, h0⟩, List.mem_finRange _, ?_⟩
      by_contra hf
      have := (hinv ⟨0, h0⟩).mp (by simpa using hf)
      simp [hb] at this
    | some b =>
      have h1 : (1 : Nat) < n := by omega
      have h0 : (0 : Nat) < n := by omega
      refine ⟨if b = ⟨0, h0⟩ then ⟨1, h1⟩ else ⟨0, h0⟩, List.mem_finRange _, ?_⟩
      by_cases hb0 : b = ⟨0, h0⟩
      · simp only [hb0, if_pos rfl]
        by_contra hf
        have := (hinv ⟨1, h1⟩).mp (by simpa using hf)
        rw [hb, hb0] at this
        simp [Fin.ext_iff] at this
      · simp only [if_neg hb0]
        by_contra hf
        have := (hinv ⟨0, h0⟩).mp (by simpa using hf)
        rw [hb] at this
        exact hb0 (by simpa using this)
  rcases hex with ⟨i, hi, hfree⟩
  have : (List.finRange n).find? (fun j => s.free j) |>.isSome := by
    rw [List.find?_isSome]
    exact ⟨i, hi, hfree⟩
  rcases Option.isSome_iff_exists.mp this with ⟨idx, hidx⟩
  exact ⟨idx, hidx, List.find?_some hidx⟩

/-- The single-write simulation step: from an invariant state, `write v`
returns, preserves the invariant, and leaves the abstract pending value
`some v`. -/
theorem write_spec {n : Nat} {T : Type} (s : Inner n T) (v : T) (hn : 2 ≤ n)
    (hinv : SeqInv s) :
    ∃ s', Inner.write v s = some s' ∧ SeqInv s' ∧ abs s' = some v := by
  rcases acquire_isSome s hn hinv with ⟨idx, hacq, hfree⟩
  cases hb : s.buffer with
  | none =>
    refine ⟨{ pool := Function.update s.pool idx v,
              free := Function.update s.free idx false,
              buffer := some idx }, ?_, ?_, ?_⟩
    · rw [Inner.write, hacq]
      simp only [Inner.write_to, Inner.release]
      rw [hb]
    · intro i
      simp only
      constructor
      · intro hf
        by_cases hi : i = idx
        · simp [hi]
        · exfalso
          rw [Function.update_noteq hi] at hf
          have := (hinv i).mp hf
          simp [hb] at this
      · intro hbi
        have : i = idx := (Option.some_inj.mp hbi).symm
        rw [this, Function.update_same]
    · simp [abs]
  | some b =>
    have hbidx : b ≠ idx := by
      intro h
      have : s.free b = false := (hinv b).mpr hb
      rw [h] at this
      rw [this] at hfree
      exact Bool.false_ne_true hfree
    refine ⟨{ pool := Function.update s.pool idx v,
              free := Function.update (Function.update s.free idx false) b true,
              buffer := some idx }, ?_, ?_, ?_⟩
    · rw [Inner.write, hacq]
      simp only [Inner.write_to, Inner.release]
      rw [hb]
    · intro i
      simp only
      constructor
      · intro hf
        by_cases hib : i = b
        · exfalso
          rw [hib] at hf
          simp [Function.update_same] at hf
        · rw [Function.update_noteq hib] at hf
          by_cases hi : i = idx
          · simp [hi]
          · exfalso
            rw [Function.update_noteq hi] at hf
            have := (hinv i).mp hf
            rw [hb] at this
            exact hib (by simpa using this.symm)
      · intro hbi
        have hi : i = idx := (Option.some_inj.mp hbi).symm
        subst hi
        rw [Function.update_noteq hbidx.symm]
        simp [Function.update_same]
    · simp [abs]

/-- The single-read simulation step: `read` reports exactly the abstract
pending value, clears it, and preserves the invariant. -/
theorem read_spec {n : Nat} {T : Type} (s : Inner n T) (hinv : SeqInv s) :
    (s.read).1 = abs s ∧ SeqInv (s.read).2 ∧ abs (s.read).2 = none := by
  cases hb : s.buffer with
  | none =>
    refine ⟨by simp [Inner.read, hb, abs], ?_, by simp [Inner.read, hb, abs]⟩
    intro i
    simp only [Inner.read, hb]
    exact (hinv i).trans (by rw [hb])
  | some b =>
    refine ⟨by simp [Inner.read, hb, abs, Inner.read_from], ?_, by simp [Inner.read, hb, abs, Inner.release]⟩
    intro i
    simp only [Inner.read, hb, Inner.release]
    constructor
    · intro hf
      by_cases hib : i = b
      · rw [hib] at hf
        simp [Function.update_same] at hf
      · rw [Function.update_noteq hib] at hf
        exfalso
        have := (hinv i).mp hf
        rw [hb] at this
        exact hib (by simpa using this.symm)
    · intro h
      simp at h

/-- Sequential simulation: from an invariant state every operation list
runs to completion, preserves the invariant, and tracks the abstract
machine. -/
theorem runState_spec {n : Nat} {T : Type} (hn : 2 ≤ n) :
    ∀ (ops : List (Op T)) (s : Inner n T), SeqInv s →
      ∃ s', s.runState ops = some s' ∧ SeqInv s' ∧ abs s' = Abs.run (abs s) ops := by
  intro ops
  induction ops with
  | nil => exact fun s hinv => ⟨s, rfl, hinv, rfl⟩
  | cons op rest ih =>
    intro s hinv
    cases op with
    | write v =>
      rcases write_spec s v hn hinv with ⟨s₁, hw, hinv₁, habs₁⟩
      rcases ih s₁ hinv₁ with ⟨s', hrun, hinv', habs'⟩
      refine ⟨s', ?_, hinv', ?_⟩
      · simp [Inner.runState, hw, hrun]
      · rw [habs', habs₁]
        rfl
    | read =>
      rcases read_spec s hinv with ⟨-, hinv₁, habs₁⟩
      rcases ih _ hinv₁ with ⟨s', hrun, hinv', habs'⟩
      refine ⟨s', ?_, hinv', ?_⟩
      · simp [Inner.runState, hrun]
      · rw [habs', habs₁]
        rfl

/-- Every sequentially reachable state satisfies the invariant and its
abstract value is the abstract run of the reaching operations. -/
theorem reachable_spec {n : Nat} {T : Type} (hn : 2 ≤ n) (init : T)
    (ops : List (Op T)) (s : Inner n T)
    (h : (Inner.new n init).runState ops = some s) :
    SeqInv s ∧ abs s = Abs.run none ops := by
  rcases runState_spec hn ops (Inner.new n init) (seqInv_new n init) with ⟨s', hrun, hinv', habs'⟩
  rw [h] at hrun
  cases Option.some_inj.mp hrun
  exact ⟨hinv', by rw [habs', abs_new]⟩

theorem seqInv_of_reachable {n : Nat} {T : Type} (hn : 2 ≤ n) (init : T)
    (s : Inner n T) (h : Reachable n init s) : SeqInv s := by
  rcases h with ⟨ops, hops⟩
  exact (reachable_spec hn init ops s hops).1

end Pool

/-! ## Sequential embedding of `mutex_spsc` -/

namespace mutex_spsc

/-- The shared state of `mutex_spsc`
(`struct Inner<T> { data: Mutex<T>, to_read: AtomicBool }`,
`src/src/mutex_spsc.rs` lines 7-10), without the poison flag (no thread dies
in the sequential runs; poisoning is modelled separately below). -/
structure Inner (T : Type) where
  data : T
  to_read : Bool

/-- `Inner::new(init)` (`mutex_spsc.rs` lines 24-29). -/
def Inner.new {T : Type} (init : T) : Inner T :=
  { data := init, to_read := false }

/-- `Inner::write` (`mutex_spsc.rs` lines 31-35): lock, overwrite the cell,
set the unread flag.  Sequentially the lock is always free. -/
def Inner.write {T : Type} (value : T) (_s : Inner T) : Inner T :=
  { data := value, to_read := true }

/-- `Inner::read` (`mutex_spsc.rs` lines 37-46): if the unread flag is set,
lock, clone the cell out into the out-parameter, clear the flag and return
true; otherwise return false leaving the out-parameter untouched.  The
result is `((returned bool, out-parameter after the call), new state)`. -/
def Inner.read {T : Type} (s : Inner T) (value : T) : (Bool × T) × Inner T :=
  if s.to_read then ((true, s.data), { s with to_read := false })
  else ((false, value), s)

/-- Sequential execution of a list of operations (the out-parameter passed
to `read` does not influence the state, so any value serves). -/
def Inner.runState {T : Type} (s : Inner T) : List (Op T) → Inner T
  | [] => s
  | Op.write v :: rest => (Inner.write v s).runState rest
  | Op.read :: rest => ((s.read s.data).2).runState rest

/-- Sequentially reachable states of `mutex_spsc`. -/
def Reachable {T : Type} (init : T) (s : Inner T) : Prop :=
  ∃ ops : List (Op T), (Inner.new init).runState ops = s

/-- Abstraction to the latest-value machine. -/
def abs {T : Type} (s : Inner T) : Option T :=
  if s.to_read then some s.data else none

theorem mutex_abs_new {T : Type} (init : T) : abs (Inner.new init) = none := rfl

theorem read_fst {T : Type} (s : Inner T) (value : T) :
    (s.read value).1 = ((abs s).isSome, (abs s).getD value) := by
  by_cases h : s.to_read <;> simp [Inner.read, abs, h]

theorem abs_write {T : Type} (s : Inner T) (v : T) :
    abs (Inner.write v s) = some v := rfl

theorem abs_read_snd {T : Type} (s : Inner T) (value : T) :
    abs (s.read value).2 = none := by
  by_cases h : s.to_read <;> simp [Inner.read, abs, h]

/-- Sequential simulation with the abstract machine. -/
theorem runState_abs {T : Type} :
    ∀ (ops : List (Op T)) (s : Inner T), abs (s.runState ops) = Abs.run (abs s) ops := by
  intro ops
  induction ops with
  | nil => intro s; rfl
  | cons op rest ih =>
    intro s
    cases op with
    | write v =>
      rw [Inner.runState, ih, abs_write]
      rfl
    | read =>
      rw [Inner.runState, ih, abs_read_snd]
      rfl

end mutex_spsc

/-! ## Sequential embedding of `ticket_spsc`

`ticket_spsc` shares the `Inner { data, to_read }` shape with `mutex_spsc`
but guards `data` with the hand-rolled `TicketMutex` (`src/src/ticket_spsc.rs`
lines 8-37): `lock` takes a ticket with a wrapping `fetch_add` on the `u64`
`next_ticket` and spins until `now_serving` equals the ticket; `unlock`
(run by `TicketGuard`'s `Drop`) stores `now_serving + 1` (wrapping in
release builds).  Sequentially the spin terminates exactly when
`now_serving` already equals the dispensed ticket, i.e. the fresh value of
`next_ticket`; otherwise the caller spins forever (`none`). -/

namespace ticket_spsc

/-- Size of the `u64` counter space: the ticket counters wrap at `2 ^ 64`. -/
def U64 : Nat := 2 ^ 64

/-- The shared state of `ticket_spsc`: the `TicketMutex` fields
(`ticket_spsc.rs` lines 8-12) flattened together with the unread flag of
`Inner` (lines 69-72). -/
structure Inner (T : Type) where
  data : T
  to_read : Bool
  now_serving : Nat
  next_ticket : Nat

/-- `Inner::new(init)` (`ticket_spsc.rs` lines 17-23 and 86-91): both
counters start at 0, the flag false. -/
def Inner.new {T : Type} (init : T) : Inner T :=
  { data := init, to_read := false, now_serving := 0, next_ticket := 0 }

/-- `Inner::write` (`ticket_spsc.rs` lines 93-97): `lock` (ticket =
`next_ticket`, which is fetch-add'ed `% 2^64`; the spin terminates
sequentially iff `now_serving` equals that ticket), overwrite the cell, set
the unread flag, and unlock via the guard drop (`now_serving + 1 % 2^64`).
`none` is the never-terminating spin. -/
def Inner.write {T : Type} (value : T) (s : Inner T) : Option (Inner T) :=
  if s.now_serving = s.next_ticket then
    some { data := value, to_read := true,
           now_serving := (s.now_serving + 1) % U64,
           next_ticket := (s.next_ticket + 1) % U64 }
  else none

/-- `Inner::read` (`ticket_spsc.rs` lines 99-108): if the unread flag is
set, lock, clone the cell into the out-parameter, clear the flag, unlock and
return true; otherwise return false without touching the lock or the
out-parameter. -/
def Inner.read {T : Type} (s : Inner T) (value : T) :
    Option ((Bool × T) × Inner T) :=
  if s.to_read then
    (if s.now_serving = s.next_ticket then
      some ((true, s.data),
        { s with to_read := false,
                 now_serving := (s.now_serving + 1) % U64,
                 next_ticket := (s.next_ticket + 1) % U64 })
    else none)
  else some ((false, value), s)

/-- Sequential execution; `none` if some lock acquisition spins forever. -/
def Inner.runState {T : Type} (s : Inner T) : List (Op T) → Option (Inner T)
  | [] => some s
  | Op.write v :: rest => (Inner.write v s).bind fun s' => s'.runState rest
  | Op.read :: rest => (s.read s.data).bind fun r => r.2.runState rest

/-- Sequentially reachable states of `ticket_spsc`. -/
def Reachable {T : Type} (init : T) (s : Inner T) : Prop :=
  ∃ ops : List (Op T), (Inner.new init).runState ops = some s

/-- The sequential lock invariant: with no thread inside the critical
section, `now_serving` has caught up with `next_ticket`. -/
def SeqInv {T : Type} (s : Inner T) : Prop :=
  s.now_serving = s.next_ticket

/-- Abstraction to the latest-value machine. -/
def abs {T : Type} (s : Inner T) : Option T :=
  if s.to_read then some s.data else none

theorem ticket_abs_new {T : Type} (init : T) : abs (Inner.new init) = none := rfl

theorem ticket_seqInv_new {T : Type} (init : T) : SeqInv (Inner.new (T := T) init) := rfl

theorem ticket_write_spec {T : Type} (s : Inner T) (v : T) (hinv : SeqInv s) :
    ∃ s', Inner.write v s = some s' ∧ SeqInv s' ∧ abs s' = some v := by
  have h : s.now_serving = s.next_ticket := hinv
  refine ⟨_, by rw [Inner.write, if_pos h], ?_, ?_⟩
  · simp [SeqInv, h]
  · simp [abs]

theorem ticket_read_spec {T : Type} (s : Inner T) (value : T) (hinv : SeqInv s) :
    ∃ r, Inner.read s value = some r ∧
      r.1 = ((abs s).isSome, (abs s).getD value) ∧ SeqInv r.2 ∧ abs r.2 = none := by
  have hlock : s.now_serving = s.next_ticket := hinv
  by_cases h : s.to_read
  · refine ⟨_, by rw [Inner.read, if_pos h, if_pos hlock], ?_, ?_, ?_⟩
    · simp [abs, h]
    · simp [SeqInv, hlock]
    · simp [abs]
  · refine ⟨_, by rw [Inner.read, if_neg h], ?_, hinv, ?_⟩
    · simp [abs, h]
    · simp [abs, h]

/-- Sequential simulation: from an invariant state every operation list
runs to completion (no lock ever spins forever), preserves the invariant,
and tracks the abstract machine. -/
theorem ticket_runState_spec {T : Type} :
    ∀ (ops : List (Op T)) (s : Inner T), SeqInv s →
      ∃ s', s.runState ops = some s' ∧ SeqInv s' ∧ abs s' = Abs.run (abs s) ops := by
  intro ops
  induction ops with
  | nil => exact fun s hinv => ⟨s, rfl, hinv, rfl⟩
  | cons op rest ih =>
    intro s hinv
    cases op with
    | write v =>
      rcases ticket_write_spec s v hinv with ⟨s₁, hw, hinv₁, habs₁⟩
      rcases ih s₁ hinv₁ with ⟨s', hrun, hinv', habs'⟩
      refine ⟨s', ?_, hinv', ?_⟩
      · simp [Inner.runState, hw, hrun]
      · rw [habs', habs₁]
        rfl
    | read =>
      rcases ticket_read_spec s s.data hinv with ⟨r, hr, -, hinv₁, habs₁⟩
      rcases ih r.2 hinv₁ with ⟨s', hrun, hinv', habs'⟩
      refine ⟨s', ?_, hinv', ?_⟩
      · simp [Inner.runState, hr, hrun]
      · rw [habs', habs₁]
        rfl

theorem ticket_reachable_spec {T : Type} (init : T) (ops : List (Op T)) (s : Inner T)
    (h : (Inner.new init).runState ops = some s) :
    SeqInv s ∧ abs s = Abs.run none ops := by
  rcases ticket_runState_spec ops (Inner.new init) (ticket_seqInv_new init) with ⟨s', hrun, hinv', habs'⟩
  rw [h] at hrun
  cases Option.some_inj.mp hrun
  exact ⟨hinv', by rw [habs', ticket_abs_new]⟩

end ticket_spsc

/-! ## Prefix lemmas: a variant's read succeeds on a prefix exactly when the
abstract machine holds a value there -/

theorem pool_prefix_iff {n : Nat} {T : Type} (hn : 2 ≤ n) (init : T)
    (l₁ : List (Op T)) :
    (∃ s₁ : Pool.Inner n T, (Pool.Inner.new n init).runState l₁ = some s₁ ∧
        (s₁.read).1 ≠ none) ↔ Abs.run (none : Option T) l₁ ≠ none := by
  constructor
  · rintro ⟨s₁, hrun, hne⟩
    rcases Pool.reachable_spec hn init l₁ s₁ hrun with ⟨hinv, habs⟩
    rwa [(Pool.read_spec s₁ hinv).1, habs] at hne
  · intro hne
    rcases Pool.runState_spec hn l₁ (Pool.Inner.new n init) (Pool.seqInv_new n init)
      with ⟨s₁, hrun, hinv, habs⟩
    rw [Pool.abs_new] at habs
    refine ⟨s₁, hrun, ?_⟩
    rwa [(Pool.read_spec s₁ hinv).1, habs]

theorem mutex_prefix_eq {T : Type} (init : T) (l₁ : List (Op T)) (out : T) :
    ((((mutex_spsc.Inner.new init).runState l₁).read out).1.1 = true) ↔
      Abs.run (none : Option T) l₁ ≠ none := by
  rw [mutex_spsc.read_fst]
  rw [mutex_spsc.runState_abs, mutex_spsc.mutex_abs_new]
  simp [Option.isSome_iff_ne_none]

theorem ticket_prefix_iff {T : Type} (init : T) (l₁ : List (Op T)) (out : T) :
    (∃ (s₁ : ticket_spsc.Inner T) (r₁ : (Bool × T) × ticket_spsc.Inner T),
        (ticket_spsc.Inner.new init).runState l₁ = some s₁ ∧
        s₁.read out = some r₁ ∧ r₁.1.1 = true) ↔
      Abs.run (none : Option T) l₁ ≠ none := by
  constructor
  · rintro ⟨s₁, r₁, hrun, hread, htrue⟩
    rcases ticket_spsc.ticket_reachable_spec init l₁ s₁ hrun with ⟨hinv, habs⟩
    rcases ticket_spsc.ticket_read_spec s₁ out hinv with ⟨r₁', hread', hfst, -, -⟩
    rw [hread] at hread'
    cases Option.some_inj.mp hread'
    rw [hfst] at htrue
    have hsome : (ticket_spsc.abs s₁).isSome = true := htrue
    rw [habs] at hsome
    simpa [Option.isSome_iff_ne_none] using hsome
  · intro hne
    rcases ticket_spsc.ticket_runState_spec l₁ (ticket_spsc.Inner.new init)
      (ticket_spsc.ticket_seqInv_new init) with ⟨s₁, hrun, hinv, habs⟩
    rw [ticket_spsc.ticket_abs_new] at habs
    rcases ticket_spsc.ticket_read_spec s₁ out hinv with ⟨r₁, hread, hfst, -, -⟩
    refine ⟨s₁, r₁, hrun, hread, ?_⟩
    rw [hfst]
    simp only [habs]
    simpa [Option.isSome_iff_ne_none] using hne

/-! ## Claims C1-C3: sequential read/write semantics of all four variants -/

/-- C1: for every clonable type `T`, every value `v`, and every state
reachable from `new(init)` by any sequence of read and write operations, in
each of the four variants (`atomic_spsc` with pool size 3, `blocking_spsc`
with pool size 2, `mutex_spsc`, `ticket_spsc`), executing `write(v)` and
then `read()` with no intervening write delivers exactly `v`: `Some(v)` for
the `Option`-returning pool variants, `true` with the out-parameter set to
`v` for the boolean form of the single-buffer variants. -/
theorem write_then_read_delivers_value :
    (∀ (T : Type) (init v : T) (s : Pool.Inner 3 T), Pool.Reachable 3 init s →
       ∃ s', Pool.Inner.write v s = some s' ∧ (s'.read).1 = some v) ∧
    (∀ (T : Type) (init v : T) (s : Pool.Inner 2 T), Pool.Reachable 2 init s →
       ∃ s', Pool.Inner.write v s = some s' ∧ (s'.read).1 = some v) ∧
    (∀ (T : Type) (v out : T) (s : mutex_spsc.Inner T),
       ((mutex_spsc.Inner.write v s).read out).1 = (true, v)) ∧
    (∀ (T : Type) (init v out : T) (s : ticket_spsc.Inner T),
       ticket_spsc.Reachable init s →
       ∃ s' r, ticket_spsc.Inner.write v s = some s' ∧
         s'.read out = some r ∧ r.1 = (true, v)) := by
  refine ⟨?_, ?_, ?_, ?_⟩
  · intro T init v s hrs
    have hinv := Pool.seqInv_of_reachable (by norm_num) init s hrs
    rcases Pool.write_spec s v (by norm_num) hinv with ⟨s', hw, hinv', habs'⟩
    exact ⟨s', hw, by rw [(Pool.read_spec s' hinv').1, habs']⟩
  · intro T init v s hrs
    have hinv := Pool.seqInv_of_reachable (by norm_num) init s hrs
    rcases Pool.write_spec s v (by norm_num) hinv with ⟨s', hw, hinv', habs'⟩
    exact ⟨s', hw, by rw [(Pool.read_spec s' hinv').1, habs']⟩
  · intro T v out s
    simp [mutex_spsc.Inner.write, mutex_spsc.Inner.read]
  · intro T init v out s hrs
    rcases hrs with ⟨ops, hops⟩
    have hinv := (ticket_spsc.ticket_reachable_spec init ops s hops).1
    rcases ticket_spsc.ticket_write_spec s v hinv with ⟨s', hw, hinv', habs'⟩
    rcases ticket_spsc.ticket_read_spec s' out hinv' with ⟨r, hread, hfst, -, -⟩
    refine ⟨s', r, hw, hread, ?_⟩
    rw [hfst, habs']
    rfl

/-- Witness for C1 at concrete inputs: the canonical scenario's first half,
`new(0); write(22); read() = Some(22)` (respectively `(true, 22)`), in all
four variants, obtained by applying the theorem at `T = Nat`, `init = 0`,
`v = 22`, at the freshly constructed state (reachable by the empty operation
list). -/
theorem write_then_read_delivers_value_witness :
    (∃ s', Pool.Inner.write 22 (Pool.Inner.new 3 (0 : Nat)) = some s' ∧
       (s'.read).1 = some 22) ∧
    (∃ s', Pool.Inner.write 22 (Pool.Inner.new 2 (0 : Nat)) = some s' ∧
       (s'.read).1 = some 22) ∧
    ((mutex_spsc.Inner.write 22 (mutex_spsc.Inner.new (0 : Nat))).read 0).1 = (true, 22) ∧
    (∃ s' r, ticket_spsc.Inner.write 22 (ticket_spsc.Inner.new (0 : Nat)) = some s' ∧
       s'.read 0 = some r ∧ r.1 = (true, 22)) := by
  refine ⟨?_, ?_, ?_, ?_⟩
  · exact write_then_read_delivers_value.1 Nat 0 22 _ ⟨[], rfl⟩
  · exact write_then_read_delivers_value.2.1 Nat 0 22 _ ⟨[], rfl⟩
  · exact write_then_read_delivers_value.2.2.1 Nat 22 0 _
  · exact write_then_read_delivers_value.2.2.2 Nat 0 22 0 _ ⟨[], rfl⟩

/-- C2: in every variant, `read()` reports "nothing new" (`None`, or
`false`) if and only if no write has been performed since construction or
since the most recent successful read.  The trace condition is rendered as:
either no `write` occurs in the operation list at all, or the list splits as
`l₁ ++ [read] ++ l₂` where the read succeeds (judged by the variant itself
on the prefix `l₁`) and `l₂` contains no write.  The claim's particular
cases follow by instantiation: at `ops = []` the very first `read()` after
`new(init)` reports "nothing new" (the initial value is not published), and
at any `ops` ending in a `read` the trailing read leaves nothing pending, so
two consecutive reads with no intervening write both report "nothing new". -/
theorem read_none_iff_no_write_since :
    (∀ (T : Type) (init : T) (ops : List (Op T)) (s : Pool.Inner 3 T),
       (Pool.Inner.new 3 init).runState ops = some s →
       ((s.read).1 = none ↔
         ((∀ v : T, Op.write v ∉ ops) ∨
          ∃ l₁ l₂ : List (Op T), ops = l₁ ++ Op.read :: l₂ ∧
            (∃ s₁ : Pool.Inner 3 T, (Pool.Inner.new 3 init).runState l₁ = some s₁ ∧
               (s₁.read).1 ≠ none) ∧
            ∀ v : T, Op.write v ∉ l₂))) ∧
    (∀ (T : Type) (init : T) (ops : List (Op T)) (s : Pool.Inner 2 T),
       (Pool.Inner.new 2 init).runState ops = some s →
       ((s.read).1 = none ↔
         ((∀ v : T, Op.write v ∉ ops) ∨
          ∃ l₁ l₂ : List (Op T), ops = l₁ ++ Op.read :: l₂ ∧
            (∃ s₁ : Pool.Inner 2 T, (Pool.Inner.new 2 init).runState l₁ = some s₁ ∧
               (s₁.read).1 ≠ none) ∧
            ∀ v : T, Op.write v ∉ l₂))) ∧
    (∀ (T : Type) (init out : T) (ops : List (Op T)),
       ((((mutex_spsc.Inner.new init).runState ops).read out).1.1 = false ↔
         ((∀ v : T, Op.write v ∉ ops) ∨
          ∃ l₁ l₂ : List (Op T), ops = l₁ ++ Op.read :: l₂ ∧
            ((((mutex_spsc.Inner.new init).runState l₁).read out).1.1 = true) ∧
            ∀ v : T, Op.write v ∉ l₂))) ∧
    (∀ (T : Type) (init out : T) (ops : List (Op T)) (s : ticket_spsc.Inner T),
       (ticket_spsc.Inner.new init).runState ops = some s →
       ((∃ r, s.read out = some r ∧ r.1.1 = false) ↔
         ((∀ v : T, Op.write v ∉ ops) ∨
          ∃ l₁ l₂ : List (Op T), ops = l₁ ++ Op.read :: l₂ ∧
            (∃ (s₁ : ticket_spsc.Inner T) (r₁ : (Bool × T) × ticket_spsc.Inner T),
               (ticket_spsc.Inner.new init).runState l₁ = some s₁ ∧
               s₁.read out = some r₁ ∧ r₁.1.1 = true) ∧
            ∀ v : T, Op.write v ∉ l₂))) := by
  have habs : ∀ (T : Type) (ops : List (Op T)),
      (Abs.run (none : Option T) ops = none ↔ Abs.NoWriteSince ops) :=
    fun T ops => Abs.run_eq_none_iff ops
  refine ⟨?_, ?_, ?_, ?_⟩
  · intro T init ops s hrun
    rcases Pool.reachable_spec (by norm_num) init ops s hrun with ⟨hinv, hab⟩
    rw [(Pool.read_spec s hinv).1, hab, habs T ops]
    unfold Abs.NoWriteSince
    constructor
    · rintro (h | ⟨l₁, l₂, heq, hne, hl₂⟩)
      · exact Or.inl h
      · exact Or.inr ⟨l₁, l₂, heq, (pool_prefix_iff (by norm_num) init l₁).mpr hne, hl₂⟩
    · rintro (h | ⟨l₁, l₂, heq, hne, hl₂⟩)
      · exact Or.inl h
      · exact Or.inr ⟨l₁, l₂, heq, (pool_prefix_iff (by norm_num) init l₁).mp hne, hl₂⟩
  · intro T init ops s hrun
    rcases Pool.reachable_spec (by norm_num) init ops s hrun with ⟨hinv, hab⟩
    rw [(Pool.read_spec s hinv).1, hab, habs T ops]
    unfold Abs.NoWriteSince
    constructor
    · rintro (h | ⟨l₁, l₂, heq, hne, hl₂⟩)
      · exact Or.inl h
      · exact Or.inr ⟨l₁, l₂, heq, (pool_prefix_iff (by norm_num) init l₁).mpr hne, hl₂⟩
    · rintro (h | ⟨l₁, l₂, heq, hne, hl₂⟩)
      · exact Or.inl h
      · exact Or.inr ⟨l₁, l₂, heq, (pool_prefix_iff (by norm_num) init l₁).mp hne, hl₂⟩
  · intro T init out ops
    have hlhs : ((((mutex_spsc.Inner.new init).runState ops).read out).1.1 = false ↔
        Abs.run (none : Option T) ops = none) := by
      rw [mutex_spsc.read_fst, mutex_spsc.runState_abs, mutex_spsc.mutex_abs_new]
      simp [Option.isSome_iff_ne_none]
    rw [hlhs, habs T ops]
    unfold Abs.NoWriteSince
    constructor
    · rintro (h | ⟨l₁, l₂, heq, hne, hl₂⟩)
      · exact Or.inl h
      · exact Or.inr ⟨l₁, l₂, heq, (mutex_prefix_eq init l₁ out).mpr hne, hl₂⟩
    · rintro (h | ⟨l₁, l₂, heq, hne, hl₂⟩)
      · exact Or.inl h
      · exact Or.inr ⟨l₁, l₂, heq, (mutex_prefix_eq init l₁ out).mp hne, hl₂⟩
  · intro T init out ops s hrun
    rcases ticket_spsc.ticket_reachable_spec init ops s hrun with ⟨hinv, hab⟩
    have hlhs : ((∃ r, s.read out = some r ∧ r.1.1 = false) ↔
        Abs.run (none : Option T) ops = none) := by
      rcases ticket_spsc.ticket_read_spec s out hinv with ⟨r, hread, hfst, -, -⟩
      constructor
      · rintro ⟨r', hread', hfalse⟩
        rw [hread] at hread'
        cases Option.some_inj.mp hread'
        rw [hfst] at hfalse
        have : (ticket_spsc.abs s).isSome = false := hfalse
        rw [hab] at this
        simpa [Option.isSome_iff_ne_none] using this
      · intro hnone
        refine ⟨r, hread, ?_⟩
        rw [hfst]
        have : (ticket_spsc.abs s).isSome = false := by
          rw [hab, hnone]
          rfl
        exact this
    rw [hlhs, habs T ops]
    unfold Abs.NoWriteSince
    constructor
    · rintro (h | ⟨l₁, l₂, heq, hne, hl₂⟩)
      · exact Or.inl h
      · exact Or.inr ⟨l₁, l₂, heq, (ticket_prefix_iff init l₁ out).mpr hne, hl₂⟩
    · rintro (h | ⟨l₁, l₂, heq, hne, hl₂⟩)
      · exact Or.inl h
      · exact Or.inr ⟨l₁, l₂, heq, (ticket_prefix_iff init l₁ out).mp hne, hl₂⟩

/-- Witness for C2 at concrete inputs: in all four variants the very first
`read()` after `new(0)` reports "nothing new", obtained by applying the
theorem at `T = Nat`, `init = 0`, `ops = []` and discharging the trace
condition (no write in the empty list). -/
theorem read_none_iff_no_write_since_witness :
    ((Pool.Inner.new 3 (0 : Nat)).read).1 = none ∧
    ((Pool.Inner.new 2 (0 : Nat)).read).1 = none ∧
    (((mutex_spsc.Inner.new (0 : Nat)).read 7).1.1 = false) ∧
    (∃ r, (ticket_spsc.Inner.new (0 : Nat)).read 7 = some r ∧ r.1.1 = false) := by
  refine ⟨?_, ?_, ?_, ?_⟩
  · exact (read_none_iff_no_write_since.1 Nat 0 [] _ rfl).mpr
      (Or.inl (by simp))
  · exact (read_none_iff_no_write_since.2.1 Nat 0 [] _ rfl).mpr
      (Or.inl (by simp))
  · exact (read_none_iff_no_write_since.2.2.1 Nat 0 7 []).mpr
      (Or.inl (by simp))
  · exact (read_none_iff_no_write_since.2.2.2 Nat 0 7 [] _ rfl).mpr
      (Or.inl (by simp))

/-- C3: for every sequence of writes `v1, ..., vn` (`n ≥ 1`, encoded as
`vs ++ [vn]`) executed with no intervening reads, starting from any
reachable state, in each variant the next `read()` delivers exactly `vn`,
and the overwritten values are never delivered by that or any later read:
every value any later read delivers is either `vn` or a value written after
the block, so a `v_i` (`i < n`) differing from those can never be
observed. -/
theorem last_write_wins :
    (∀ (T : Type) (init : T) (s : Pool.Inner 3 T), Pool.Reachable 3 init s →
       ∀ (vs : List T) (vn : T),
       ∃ sw, s.runState ((vs.map Op.write) ++ [Op.write vn]) = some sw ∧
         (sw.read).1 = some vn ∧
         ∀ (cont : List (Op T)) (s' : Pool.Inner 3 T), sw.runState cont = some s' →
           ∀ w, (s'.read).1 = some w → w = vn ∨ w ∈ writtenVals cont) ∧
    (∀ (T : Type) (init : T) (s : Pool.Inner 2 T), Pool.Reachable 2 init s →
       ∀ (vs : List T) (vn : T),
       ∃ sw, s.runState ((vs.map Op.write) ++ [Op.write vn]) = some sw ∧
         (sw.read).1 = some vn ∧
         ∀ (cont : List (Op T)) (s' : Pool.Inner 2 T), sw.runState cont = some s' →
           ∀ w, (s'.read).1 = some w → w = vn ∨ w ∈ writtenVals cont) ∧
    (∀ (T : Type) (out : T) (s : mutex_spsc.Inner T) (vs : List T) (vn : T),
       (((s.runState ((vs.map Op.write) ++ [Op.write vn])).read out).1 = (true, vn)) ∧
       ∀ (cont : List (Op T)) (w : T),
         (((s.runState ((vs.map Op.write) ++ [Op.write vn])).runState cont).read out).1 =
           (true, w) → w = vn ∨ w ∈ writtenVals cont) ∧
    (∀ (T : Type) (init out : T) (s : ticket_spsc.Inner T),
       ticket_spsc.Reachable init s → ∀ (vs : List T) (vn : T),
       ∃ sw, s.runState ((vs.map Op.write) ++ [Op.write vn]) = some sw ∧
         (∃ r, sw.read out = some r ∧ r.1 = (true, vn)) ∧
         ∀ (cont : List (Op T)) (s' : ticket_spsc.Inner T),
           sw.runState cont = some s' →
           ∀ (r : (Bool × T) × ticket_spsc.Inner T) (w : T),
             s'.read out = some r → r.1.1 = true → r.1.2 = w →
             w = vn ∨ w ∈ writtenVals cont) := by
  refine ⟨?_, ?_, ?_, ?_⟩
  · intro T init s hrs vs vn
    have hinv := Pool.seqInv_of_reachable (by norm_num) init s hrs
    rcases Pool.runState_spec (n := 3) (by norm_num)
      ((vs.map Op.write) ++ [Op.write vn]) s hinv with ⟨sw, hrun, hinvw, habsw⟩
    rw [Abs.run_writes_last] at habsw
    refine ⟨sw, hrun, by rw [(Pool.read_spec sw hinvw).1, habsw], ?_⟩
    intro cont s' hcont w hw
    rcases Pool.runState_spec (n := 3) (by norm_num) cont sw hinvw
      with ⟨s'', hrun'', hinv'', habs''⟩
    rw [hcont] at hrun''
    cases Option.some_inj.mp hrun''
    rw [(Pool.read_spec s' hinv'').1, habs'', habsw] at hw
    rcases Abs.run_mem (some vn) cont w hw with h | h
    · exact Or.inl (Option.some_inj.mp h).symm
    · exact Or.inr h
  · intro T init s hrs vs vn
    have hinv := Pool.seqInv_of_reachable (by norm_num) init s hrs
    rcases Pool.runState_spec (n := 2) (by norm_num)
      ((vs.map Op.write) ++ [Op.write vn]) s hinv with ⟨sw, hrun, hinvw, habsw⟩
    rw [Abs.run_writes_last] at habsw
    refine ⟨sw, hrun, by rw [(Pool.read_spec sw hinvw).1, habsw], ?_⟩
    intro cont s' hcont w hw
    rcases Pool.runState_spec (n := 2) (by norm_num) cont sw hinvw
      with ⟨s'', hrun'', hinv'', habs''⟩
    rw [hcont] at hrun''
    cases Option.some_inj.mp hrun''
    rw [(Pool.read_spec s' hinv'').1, habs'', habsw] at hw
    rcases Abs.run_mem (some vn) cont w hw with h | h
    · exact Or.inl (Option.some_inj.mp h).symm
    · exact Or.inr h
  · intro T out s vs vn
    have hw : mutex_spsc.abs (s.runState ((vs.map Op.write) ++ [Op.write vn])) =
        some vn := by
      rw [mutex_spsc.runState_abs, Abs.run_writes_last]
    constructor
    · rw [mutex_spsc.read_fst, hw]
      rfl
    · intro cont w hcontread
      have habs' : mutex_spsc.abs
          ((s.runState ((vs.map Op.write) ++ [Op.write vn])).runState cont) =
          Abs.run (some vn) cont := by
        rw [mutex_spsc.runState_abs, hw]
      rw [mutex_spsc.read_fst, habs'] at hcontread
      cases hrc : Abs.run (some vn) cont with
      | none =>
        rw [hrc] at hcontread
        exact absurd (congrArg Prod.fst hcontread) (by simp)
      | some u =>
        rw [hrc] at hcontread
        have hu : u = w := by simpa using congrArg Prod.snd hcontread
        subst hu
        rcases Abs.run_mem (some vn) cont u hrc with h | h
        · exact Or.inl (Option.some_inj.mp h).symm
        · exact Or.inr h
  · intro T init out s hrs vs vn
    rcases hrs with ⟨ops, hops⟩
    have hinv := (ticket_spsc.ticket_reachable_spec init ops s hops).1
    rcases ticket_spsc.ticket_runState_spec ((vs.map Op.write) ++ [Op.write vn]) s hinv
      with ⟨sw, hrun, hinvw, habsw⟩
    rw [Abs.run_writes_last] at habsw
    rcases ticket_spsc.ticket_read_spec sw out hinvw with ⟨r, hread, hfst, -, -⟩
    refine ⟨sw, hrun, ⟨r, hread, by rw [hfst, habsw]; rfl⟩, ?_⟩
    intro cont s' hcont r' w hread' htrue hval
    rcases ticket_spsc.ticket_runState_spec cont sw hinvw with ⟨s'', hrun'', hinv'', habs''⟩
    rw [hcont] at hrun''
    cases Option.some_inj.mp hrun''
    rcases ticket_spsc.ticket_read_spec s' out hinv'' with ⟨r'', hread'', hfst'', -, -⟩
    rw [hread''] at hread'
    cases Option.some_inj.mp hread'
    rw [hfst''] at htrue hval
    have hsome : (ticket_spsc.abs s').isSome = true := htrue
    rw [habs'', habsw] at hsome
    cases hrc : Abs.run (some vn) cont with
    | none =>
      rw [hrc] at hsome
      exact absurd hsome (by simp)
    | some u =>
      have hgd : (ticket_spsc.abs s').getD out = w := hval
      rw [habs'', habsw, hrc] at hgd
      have hu : u = w := by simpa using hgd
      subst hu
      rcases Abs.run_mem (some vn) cont u hrc with h | h
      · exact Or.inl (Option.some_inj.mp h).symm
      · exact Or.inr h

/-- Witness for C3 at concrete inputs: the canonical scenario's second
half, `write(42); write(62); read() = Some(62)` from the fresh state, in all
four variants, by applying the theorem at `T = Nat`, `vs = [42]`,
`vn = 62`. -/
theorem last_write_wins_witness :
    (∃ sw, (Pool.Inner.new 3 (0 : Nat)).runState
        [Op.write 42, Op.write 62] = some sw ∧ (sw.read).1 = some 62) ∧
    (∃ sw, (Pool.Inner.new 2 (0 : Nat)).runState
        [Op.write 42, Op.write 62] = some sw ∧ (sw.read).1 = some 62) ∧
    (((mutex_spsc.Inner.new (0 : Nat)).runState
        [Op.write 42, Op.write 62]).read 0).1 = (true, 62) ∧
    (∃ sw, (ticket_spsc.Inner.new (0 : Nat)).runState
        [Op.write 42, Op.write 62] = some sw ∧
       ∃ r, sw.read 0 = some r ∧ r.1 = (true, 62)) := by
  refine ⟨?_, ?_, ?_, ?_⟩
  · rcases last_write_wins.1 Nat 0 _ ⟨[], rfl⟩ [42] 62 with ⟨sw, h1, h2, -⟩
    exact ⟨sw, h1, h2⟩
  · rcases last_write_wins.2.1 Nat 0 _ ⟨[], rfl⟩ [42] 62 with ⟨sw, h1, h2, -⟩
    exact ⟨sw, h1, h2⟩
  · exact (last_write_wins.2.2.1 Nat 0 (mutex_spsc.Inner.new 0) [42] 62).1
  · rcases last_write_wins.2.2.2 Nat 0 0 _ ⟨[], rfl⟩ [42] 62 with ⟨sw, h1, h2, -⟩
    exact ⟨sw, h1, h2⟩

/-! ## Claim C10: a failed read leaves the out-parameter untouched -/

/-- C10: in the boolean out-parameter form of read (`mutex_spsc` and
`ticket_spsc`), whenever `read(value)` returns `false` the memory referenced
by the out-parameter is left exactly as the caller supplied it, and the
shared state is unchanged, so the caller's previous value survives any
number of empty reads (iterating a call that returns both the out-parameter
and the state unchanged changes nothing). -/
theorem failed_read_leaves_out_param :
    (∀ (T : Type) (s : mutex_spsc.Inner T) (out : T),
       (s.read out).1.1 = false → (s.read out).1.2 = out ∧ (s.read out).2 = s) ∧
    (∀ (T : Type) (s : ticket_spsc.Inner T) (out : T)
       (r : (Bool × T) × ticket_spsc.Inner T),
       s.read out = some r → r.1.1 = false → r.1.2 = out ∧ r.2 = s) := by
  constructor
  · intro T s out hfalse
    by_cases h : s.to_read
    · rw [mutex_spsc.Inner.read, if_pos h] at hfalse
      simp at hfalse
    · rw [mutex_spsc.Inner.read, if_neg h]
      exact ⟨rfl, rfl⟩
  · intro T s out r hr hfalse
    by_cases h : s.to_read
    · by_cases hl : s.now_serving = s.next_ticket
      · rw [ticket_spsc.Inner.read, if_pos h, if_pos hl] at hr
        cases Option.some_inj.mp hr
        simp at hfalse
      · rw [ticket_spsc.Inner.read, if_pos h, if_neg hl] at hr
        cases hr
    · rw [ticket_spsc.Inner.read, if_neg h] at hr
      cases Option.some_inj.mp hr
      exact ⟨rfl, rfl⟩

/-- Witness for C10 at concrete inputs: on the fresh `new(0)` state of both
variants a read with out-parameter 7 returns `false` and leaves the 7 (and
the state) untouched, by applying the theorem at `T = Nat`. -/
theorem failed_read_leaves_out_param_witness :
    (((mutex_spsc.Inner.new (0 : Nat)).read 7).1.2 = 7 ∧
      ((mutex_spsc.Inner.new (0 : Nat)).read 7).2 = mutex_spsc.Inner.new 0) ∧
    ∃ r, (ticket_spsc.Inner.new (0 : Nat)).read 7 = some r ∧
      r.1.2 = 7 ∧ r.2 = ticket_spsc.Inner.new 0 := by
  constructor
  · exact failed_read_leaves_out_param.1 Nat (mutex_spsc.Inner.new 0) 7 rfl
  · refine ⟨((false, 7), ticket_spsc.Inner.new 0), rfl, ?_⟩
    exact failed_read_leaves_out_param.2 Nat (ticket_spsc.Inner.new 0) 7 _ rfl rfl

/-! ## Interleaved small-step model of the pool-rotation variants

One writer thread and one reader thread run `Inner::write` / `Inner::read`
concurrently; every atomic instruction of the source (one `swap` on a free
flag, the non-atomic store into a cell that only the writer touches, the
`swap` on `buffer`, one `store` on a free flag, the clone out of a cell) is
one step of the relation, and steps interleave arbitrarily.  The parameter
`bl` selects what an exhausted free-flag scan does: `false` is
`atomic_spsc`'s `unreachable!()` (modelled as an absorbing `panicked`
program counter), `true` is `blocking_spsc`'s retry loop (`write` lines
44-61: attempt `r` failing with `-1` retries, after a `yield_now` once
`r >= 20`).

Ghost fields `written` (every value ever passed to a `write` call, appended
when the call begins) and `delivered` (every value a `read` call cloned
out) record the observable history; they touch no protocol decision. -/

namespace PoolC

/-- Program counter of the writer thread inside (or between) `write` calls.
`scan v i r`: executing `acquire`, about to test free flag `i`, in attempt
`r` of the retry loop (`blocking_spsc` only; `atomic_spsc` never leaves
attempt 0).  `store v idx`: acquired cell `idx`, about to run `write_to`.
`publish v idx`: about to `buffer.swap(idx)`.  `relPrev prev`: swapped, got
`prev` back, about to release it if it is not the sentinel.  `yielding v r`:
inside `thread::yield_now` between failed attempts. `panicked`: reached
`unreachable!()`. -/
inductive WPC (n : Nat) (T : Type) where
  | idle
  | scan (v : T) (i : Nat) (r : Nat)
  | yielding (v : T) (r : Nat)
  | store (v : T) (idx : Fin n)
  | publish (v : T) (idx : Fin n)
  | relPrev (prev : Option (Fin n))
  | panicked
deriving DecidableEq

/-- Program counter of the reader thread inside (or between) `read` calls:
after swapping a non-sentinel `buffer` out it holds cell `b`, first cloning
it (`cloning b`), then releasing it (`releasing b`). -/
inductive RPC (n : Nat) where
  | idle
  | cloning (b : Fin n)
  | releasing (b : Fin n)
deriving DecidableEq

/-- A global configuration: the shared `Inner` fields, both program
counters, and the ghost history. -/
structure Config (n : Nat) (T : Type) where
  pool : Fin n → T
  free : Fin n → Bool
  buffer : Option (Fin n)
  wpc : WPC n T
  rpc : RPC n
  written : List T
  delivered : List T

/-- The configuration right after `new(init)`: all cells hold `init`, all
flags are free, `buffer` is the sentinel, both threads are idle. -/
def init0 (n : Nat) {T : Type} (init : T) : Config n T :=
  { pool := fun _ => init, free := fun _ => true, buffer := none,
    wpc := .idle, rpc := .idle, written := [], delivered := [] }

/-- One interleaved step of the two threads. -/
inductive Step (bl : Bool) {n : Nat} {T : Type} : Config n T → Config n T → Prop where
  /-- The writer begins `write(v)` (any value; ghost-recorded). -/
  | beginWrite (c : Config n T) (v : T) (h : c.wpc = .idle) :
      Step bl c { c with wpc := .scan v 0 0, written := c.written ++ [v] }
  /-- `acquire`: the `swap(false)` on flag `i` returns true — cell claimed. -/
  | scanHit (c : Config n T) (v : T) (i r : Nat) (hi : i < n)
      (h : c.wpc = .scan v i r) (hf : c.free ⟨i, hi⟩ = true) :
      Step bl c { c with wpc := .store v ⟨i, hi⟩,
                         free := Function.update c.free ⟨i, hi⟩ false }
  /-- `acquire`: the `swap(false)` on flag `i` returns false — move on. -/
  | scanMiss (c : Config n T) (v : T) (i r : Nat) (hi : i < n)
      (h : c.wpc = .scan v i r) (hf : c.free ⟨i, hi⟩ = false) :
      Step bl c { c with wpc := .scan v (i + 1) r }
  /-- `atomic_spsc` only: the scan fell through all flags — `unreachable!()`. -/
  | scanExhaustPanic (c : Config n T) (v : T) (i r : Nat) (hi : n ≤ i)
      (h : c.wpc = .scan v i r) (hbl : bl = false) :
      Step bl c { c with wpc := .panicked }
  /-- `blocking_spsc` only: `acquire` returned `-1` in attempt `r < 20` —
  retry at once. -/
  | scanExhaustRetry (c : Config n T) (v : T) (i r : Nat) (hi : n ≤ i)
      (h : c.wpc = .scan v i r) (hbl : bl = true) (hr : r < 20) :
      Step bl c { c with wpc := .scan v 0 (r + 1) }
  /-- `blocking_spsc` only: `acquire` returned `-1` in attempt `r ≥ 20` —
  yield the scheduling slot before retrying. -/
  | scanExhaustYield (c : Config n T) (v : T) (i r : Nat) (hi : n ≤ i)
      (h : c.wpc = .scan v i r) (hbl : bl = true) (hr : 20 ≤ r) :
      Step bl c { c with wpc := .yielding v (r + 1) }
  /-- `blocking_spsc` only: `thread::yield_now` returns — rescan. -/
  | yieldDone (c : Config n T) (v : T) (r : Nat) (h : c.wpc = .yielding v r) :
      Step bl c { c with wpc := .scan v 0 r }
  /-- `write_to(idx, v)`: the store into the claimed cell. -/
  | storeStep (c : Config n T) (v : T) (idx : Fin n) (h : c.wpc = .store v idx) :
      Step bl c { c with wpc := .publish v idx,
                         pool := Function.update c.pool idx v }
  /-- `buffer.swap(idx)`: publish the claimed cell, capturing the previous
  published index. -/
  | publishStep (c : Config n T) (v : T) (idx : Fin n) (h : c.wpc = .publish v idx) :
      Step bl c { c with wpc := .relPrev c.buffer, buffer := some idx }
  /-- `release(prev)` for a non-sentinel previous index. -/
  | relPrevSome (c : Config n T) (b : Fin n) (h : c.wpc = .relPrev (some b)) :
      Step bl c { c with wpc := .idle, free := Function.update c.free b true }
  /-- The previous index was the sentinel: nothing to release. -/
  | relPrevNone (c : Config n T) (h : c.wpc = .relPrev none) :
      Step bl c { c with wpc := .idle }
  /-- `read`: `buffer.swap(-1)` returned the sentinel — report nothing new
  (the state is unchanged). -/
  | readSwapNone (c : Config n T) (h : c.rpc = .idle) (hb : c.buffer = none) :
      Step bl c c
  /-- `read`: `buffer.swap(-1)` returned index `b` — the reader now holds
  cell `b`. -/
  | readSwapSome (c : Config n T) (b : Fin n) (h : c.rpc = .idle)
      (hb : c.buffer = some b) :
      Step bl c { c with buffer := none, rpc := .cloning b }
  /-- `read_from(b)`: clone the value out (ghost-recorded as delivered). -/
  | readClone (c : Config n T) (b : Fin n) (h : c.rpc = .cloning b) :
      Step bl c { c with rpc := .releasing b,
                         delivered := c.delivered ++ [c.pool b] }
  /-- `release(b)`: the reader frees the consumed cell and returns. -/
  | readRelease (c : Config n T) (b : Fin n) (h : c.rpc = .releasing b) :
      Step bl c { c with rpc := .idle, free := Function.update c.free b true }

/-- Configurations reachable from `new(init)` by interleaved steps. -/
def Reach (bl : Bool) (n : Nat) {T : Type} (init : T) (c : Config n T) : Prop :=
  Relation.ReflTransGen (Step bl) (init0 n init) c

/-- The pool index held by the writer: the claimed cell between a
successful flag swap and the `buffer` swap, or the captured previous index
between the `buffer` swap and its release. -/
def wHold {n : Nat} {T : Type} : WPC n T → Option (Fin n)
  | .store _ idx => some idx
  | .publish _ idx => some idx
  | .relPrev prev => prev
  | _ => none

/-- The pool index held by the reader between its `buffer` swap and its
release of the consumed cell. -/
def rHold {n : Nat} : RPC n → Option (Fin n)
  | .idle => none
  | .cloning b => some b
  | .releasing b => some b

/-- How many of the four roles (free, published, writer-held, reader-held)
cell `i` currently plays. -/
def roleCount {n : Nat} {T : Type} (c : Config n T) (i : Fin n) : Nat :=
  (if c.free i = true then 1 else 0) + (if c.buffer = some i then 1 else 0) +
    (if wHold c.wpc = some i then 1 else 0) + (if rHold c.rpc = some i then 1 else 0)

/-- The four-role partition: every cell plays exactly one of the four roles
(in particular the roles are pairwise disjoint and together cover the
pool). -/
def Partition {n : Nat} {T : Type} (c : Config n T) : Prop :=
  ∀ i : Fin n, roleCount c i = 1

/-- Ghost-value invariant: the published cell, the writer's in-flight value
and the reader's held cell all carry values that some `write` call was
given, and so does everything ever delivered. -/
def ValsInv {n : Nat} {T : Type} (c : Config n T) : Prop :=
  (∀ b : Fin n, c.buffer = some b → c.pool b ∈ c.written) ∧
  (∀ (v : T) (i r : Nat), c.wpc = .scan v i r → v ∈ c.written) ∧
  (∀ (v : T) (r : Nat), c.wpc = .yielding v r → v ∈ c.written) ∧
  (∀ (v : T) (idx : Fin n), c.wpc = .store v idx → v ∈ c.written) ∧
  (∀ (v : T) (idx : Fin n), c.wpc = .publish v idx →
     c.pool idx = v ∧ v ∈ c.written) ∧
  (∀ b : Fin n, rHold c.rpc = some b → c.pool b ∈ c.written) ∧
  (∀ x : T, x ∈ c.delivered → x ∈ c.written)

/-- The inductive invariant of both pool-rotation variants. -/
def Inv {n : Nat} {T : Type} (c : Config n T) : Prop :=
  Partition c ∧ ValsInv c

theorem inv_init0 (n : Nat) {T : Type} (init : T) : Inv (init0 n init) := by
  constructor
  · intro i
    simp [roleCount, init0, wHold, rHold]
  · refine ⟨?_, ?_, ?_, ?_, ?_, ?_, ?_⟩ <;> intros <;> simp_all [init0, rHold]

/-- Exclusivity: a cell the writer holds is not free, not published and not
held by the reader. -/
theorem wHold_excl {n : Nat} {T : Type} {c : Config n T} (hpart : Partition c)
    {i : Fin n} (hw : wHold c.wpc = some i) :
    c.free i = false ∧ c.buffer ≠ some i ∧ rHold c.rpc ≠ some i := by
  have hp := hpart i
  rw [roleCount, hw] at hp
  simp only [eq_self_iff_true, if_true] at hp
  refine ⟨?_, ?_, ?_⟩
  · cases hfree : c.free i with
    | false => rfl
    | true =>
      rw [hfree] at hp
      simp only [if_true] at hp
      split_ifs at hp <;> omega
  · intro hb
    rw [if_pos hb] at hp
    split_ifs at hp <;> omega
  · intro hr
    rw [if_pos hr] at hp
    split_ifs at hp <;> omega

/-- One interleaved step preserves the invariant. -/
theorem step_inv {bl : Bool} {n : Nat} {T : Type} {c c' : Config n T}
    (hinv : Inv c) (hstep : Step bl c c') : Inv c' := by
  rcases hinv with ⟨hpart, hbuf, hscan, hyld, hsto, hpub, hrh, hdel⟩
  cases hstep with
  | beginWrite v h =>
    refine ⟨?_, ?_, ?_, ?_, ?_, ?_, ?_, ?_⟩
    · intro j
      have hp := hpart j
      clear hpart hbuf hscan hyld hsto hpub hrh hdel
      simp only [roleCount, wHold, h] at hp ⊢
      exact hp
    · intro b hb
      exact List.mem_append_left _ (hbuf b hb)
    · intro v' i r hv
      cases hv
      simp
    · intro v' r hv
      cases hv
    · intro v' idx hv
      cases hv
    · intro v' idx hv
      cases hv
    · intro b hb
      exact List.mem_append_left _ (hrh b hb)
    · intro x hx
      exact List.mem_append_left _ (hdel x hx)
  | scanHit v i r hi h hf =>
    refine ⟨?_, ?_, ?_, ?_, ?_, ?_, ?_, ?_⟩
    · intro j
      have hp := hpart j
      clear hpart hbuf hscan hyld hsto hpub hrh hdel
      simp only [roleCount, wHold, h, Function.update_apply, Option.some_inj] at hp ⊢
      split_ifs at hp ⊢ <;> first | rfl | omega | (exfalso; subst_vars; simp_all)
    · exact hbuf
    · intro v' i' r' hv
      cases hv
    · intro v' r' hv
      cases hv
    · intro v' idx hv
      cases hv
      exact hscan v i r h
    · intro v' idx hv
      cases hv
    · exact hrh
    · exact hdel
  | scanMiss v i r hi h hf =>
    refine ⟨?_, ?_, ?_, ?_, ?_, ?_, ?_, ?_⟩
    · intro j
      have hp := hpart j
      clear hpart hbuf hscan hyld hsto hpub hrh hdel
      simp only [roleCount, wHold, h] at hp ⊢
      exact hp
    · exact hbuf
    · intro v' i' r' hv
      cases hv
      exact hscan v i r h
    · intro v' r' hv
      cases hv
    · intro v' idx hv
      cases hv
    · intro v' idx hv
      cases hv
    · exact hrh
    · exact hdel
  | scanExhaustPanic v i r hi h hbl =>
    refine ⟨?_, ?_, ?_, ?_, ?_, ?_, ?_, ?_⟩
    · intro j
      have hp := hpart j
      clear hpart hbuf hscan hyld hsto hpub hrh hdel
      simp only [roleCount, wHold, h] at hp ⊢
      exact hp
    · exact hbuf
    · intro v' i' r' hv
      cases hv
    · intro v' r' hv
      cases hv
    · intro v' idx hv
      cases hv
    · intro v' idx hv
      cases hv
    · exact hrh
    · exact hdel
  | scanExhaustRetry v i r hi h hbl hr =>
    refine ⟨?_, ?_, ?_, ?_, ?_, ?_, ?_, ?_⟩
    · intro j
      have hp := hpart j
      clear hpart hbuf hscan hyld hsto hpub hrh hdel
      simp only [roleCount, wHold, h] at hp ⊢
      exact hp
    · exact hbuf
    · intro v' i' r' hv
      cases hv
      exact hscan v i r h
    · intro v' r' hv
      cases hv
    · intro v' idx hv
      cases hv
    · intro v' idx hv
      cases hv
    · exact hrh
    · exact hdel
  | scanExhaustYield v i r hi h hbl hr =>
    refine ⟨?_, ?_, ?_, ?_, ?_, ?_, ?_, ?_⟩
    · intro j
      have hp := hpart j
      clear hpart hbuf hscan hyld hsto hpub hrh hdel
      simp only [roleCount, wHold, h] at hp ⊢
      exact hp
    · exact hbuf
    · intro v' i' r' hv
      cases hv
    · intro v' r' hv
      cases hv
      exact hscan v i r h
    · intro v' idx hv
      cases hv
    · intro v' idx hv
      cases hv
    · exact hrh
    · exact hdel
  | yieldDone v r h =>
    refine ⟨?_, ?_, ?_, ?_, ?_, ?_, ?_, ?_⟩
    · intro j
      have hp := hpart j
      clear hpart hbuf hscan hyld hsto hpub hrh hdel
      simp only [roleCount, wHold, h] at hp ⊢
      exact hp
    · exact hbuf
    · intro v' i' r' hv
      cases hv
      exact hyld v r h
    · intro v' r' hv
      cases hv
    · intro v' idx hv
      cases hv
    · intro v' idx hv
      cases hv
    · exact hrh
    · exact hdel
  | storeStep v idx h =>
    have hwh : wHold c.wpc = some idx := by rw [h]; rfl
    have hexcl := wHold_excl hpart hwh
    refine ⟨?_, ?_, ?_, ?_, ?_, ?_, ?_, ?_⟩
    · intro j
      have hp := hpart j
      clear hpart hbuf hscan hyld hsto hpub hrh hdel
      simp only [roleCount, wHold, h] at hp ⊢
      exact hp
    · intro b hb
      dsimp only at hb ⊢
      have hbne : b ≠ idx := fun he => hexcl.2.1 (he ▸ hb)
      rw [Function.update_noteq hbne]
      exact hbuf b hb
    · intro v' i' r' hv
      cases hv
    · intro v' r' hv
      cases hv
    · intro v' idx' hv
      cases hv
    · intro v' idx' hv
      cases hv
      exact ⟨Function.update_same _ _ _, hsto v idx h⟩
    · intro b hb
      dsimp only at hb ⊢
      have hbne : b ≠ idx := fun he => hexcl.2.2 (he ▸ hb)
      rw [Function.update_noteq hbne]
      exact hrh b hb
    · exact hdel
  | publishStep v idx h =>
    refine ⟨?_, ?_, ?_, ?_, ?_, ?_, ?_, ?_⟩
    · intro j
      have hp := hpart j
      clear hpart hbuf hscan hyld hsto hpub hrh hdel
      simp only [roleCount, wHold, h, Option.some_inj] at hp ⊢
      split_ifs at hp ⊢ <;> first | rfl | omega | (exfalso; subst_vars; simp_all)
    · intro b hb
      dsimp only at hb ⊢
      have hbe : b = idx := (Option.some_inj.mp hb).symm
      subst hbe
      rw [(hpub v b h).1]
      exact (hpub v b h).2
    · intro v' i' r' hv
      cases hv
    · intro v' r' hv
      cases hv
    · intro v' idx' hv
      cases hv
    · intro v' idx' hv
      cases hv
    · exact hrh
    · exact hdel
  | relPrevSome b h =>
    refine ⟨?_, ?_, ?_, ?_, ?_, ?_, ?_, ?_⟩
    · intro j
      have hp := hpart j
      clear hpart hbuf hscan hyld hsto hpub hrh hdel
      simp only [roleCount, wHold, h, Function.update_apply, Option.some_inj] at hp ⊢
      split_ifs at hp ⊢ <;> first | rfl | omega | (exfalso; subst_vars; simp_all)
    · exact hbuf
    · intro v' i' r' hv
      cases hv
    · intro v' r' hv
      cases hv
    · intro v' idx' hv
      cases hv
    · intro v' idx' hv
      cases hv
    · exact hrh
    · exact hdel
  | relPrevNone h =>
    refine ⟨?_, ?_, ?_, ?_, ?_, ?_, ?_, ?_⟩
    · intro j
      have hp := hpart j
      clear hpart hbuf hscan hyld hsto hpub hrh hdel
      simp only [roleCount, wHold, h] at hp ⊢
      exact hp
    · exact hbuf
    · intro v' i' r' hv
      cases hv
    · intro v' r' hv
      cases hv
    · intro v' idx' hv
      cases hv
    · intro v' idx' hv
      cases hv
    · exact hrh
    · exact hdel
  | readSwapNone h hb =>
    exact ⟨hpart, hbuf, hscan, hyld, hsto, hpub, hrh, hdel⟩
  | readSwapSome b h hb =>
    refine ⟨?_, ?_, ?_, ?_, ?_, ?_, ?_, ?_⟩
    · intro j
      have hp := hpart j
      clear hpart hbuf hscan hyld hsto hpub hrh hdel
      simp only [roleCount, rHold, h, hb, Option.some_inj] at hp ⊢
      split_ifs at hp ⊢ <;> first | rfl | omega | (exfalso; subst_vars; simp_all)
    · intro b' hb'
      cases hb'
    · exact hscan
    · exact hyld
    · exact hsto
    · exact hpub
    · intro b' hb'
      have hbe : b = b' := by simpa [rHold] using hb'
      subst hbe
      exact hbuf b hb
    · exact hdel
  | readClone b h =>
    refine ⟨?_, ?_, ?_, ?_, ?_, ?_, ?_, ?_⟩
    · intro j
      have hp := hpart j
      clear hpart hbuf hscan hyld hsto hpub hrh hdel
      simp only [roleCount, rHold, h] at hp ⊢
      exact hp
    · exact hbuf
    · exact hscan
    · exact hyld
    · exact hsto
    · exact hpub
    · intro b' hb'
      have hbe : b = b' := by simpa [rHold] using hb'
      subst hbe
      exact hrh b (by rw [h]; rfl)
    · intro x hx
      rcases List.mem_append.mp hx with hx | hx
      · exact hdel x hx
      · have hxe : x = c.pool b := by simpa using hx
        subst hxe
        exact hrh b (by rw [h]; rfl)
  | readRelease b h =>
    refine ⟨?_, ?_, ?_, ?_, ?_, ?_, ?_, ?_⟩
    · intro j
      have hp := hpart j
      clear hpart hbuf hscan hyld hsto hpub hrh hdel
      simp only [roleCount, rHold, h, Function.update_apply, Option.some_inj] at hp ⊢
      split_ifs at hp ⊢ <;> first | rfl | omega | (exfalso; subst_vars; simp_all)
    · exact hbuf
    · exact hscan
    · exact hyld
    · exact hsto
    · exact hpub
    · intro b' hb'
      cases hb'
    · exact hdel

/-- The invariant holds in every reachable configuration of either
pool-rotation variant. -/
theorem reach_inv {bl : Bool} {n : Nat} {T : Type} {init : T} {c : Config n T}
    (h : Reach bl n init c) : Inv c := by
  induction h with
  | refl => exact inv_init0 n init
  | tail hr hstep ih => exact step_inv ih hstep

/-- In a 3-cell configuration where the writer holds no cell, some free flag
is set: the published index and the reader's held index can account for at
most two of the three cells. -/
theorem exists_free_of_wHold_none {T : Type} {c : Config 3 T} (hpart : Partition c)
    (hw : wHold c.wpc = none) : ∃ j : Fin 3, c.free j = true := by
  by_contra hno
  push_neg at hno
  have hcase : ∀ j : Fin 3, c.buffer = some j ∨ rHold c.rpc = some j := by
    intro j
    have hp := hpart j
    rw [roleCount, hw] at hp
    have hfj : ¬ c.free j = true := by
      intro hf
      exact (hno j) hf
    rw [if_neg hfj] at hp
    simp only [show ((none : Option (Fin 3)) = some j) = False by simp, if_false] at hp
    by_cases hb : c.buffer = some j
    · exact Or.inl hb
    · rw [if_neg hb] at hp
      by_cases hr : rHold c.rpc = some j
      · exact Or.inr hr
      · rw [if_neg hr] at hp
        omega
  have h0 := hcase 0
  have h1 := hcase 1
  have h2 := hcase 2
  rcases h0 with h0 | h0 <;> rcases h1 with h1 | h1 <;> rcases h2 with h2 | h2 <;>
    simp_all

/-- The extra invariant of the wait-free (`atomic_spsc`, `bl = false`)
instance: the scan always still has a free flag at or after its current
position, and the `unreachable!()` branch has never been taken. -/
def ScanFree {T : Type} (c : Config 3 T) : Prop :=
  ∀ (v : T) (i r : Nat), c.wpc = .scan v i r →
    ∃ j : Nat, i ≤ j ∧ ∃ hj : j < 3, c.free ⟨j, hj⟩ = true

/-- One step of the wait-free instance preserves the scan invariant and
never reaches the panic state. -/
theorem step_ainv {T : Type} {c c' : Config 3 T}
    (hinv : Inv c) (hsf : ScanFree c) (hnp : c.wpc ≠ .panicked)
    (hstep : Step false c c') : ScanFree c' ∧ c'.wpc ≠ .panicked := by
  cases hstep with
  | beginWrite v h =>
    constructor
    · intro v' i r hv
      cases hv
      rcases exists_free_of_wHold_none hinv.1 (by rw [h]; rfl) with ⟨j, hj⟩
      exact ⟨j.val, Nat.zero_le _, j.isLt, hj⟩
    · simp
  | scanHit v i r hi h hf =>
    constructor
    · intro v' i' r' hv
      cases hv
    · simp
  | scanMiss v i r hi h hf =>
    constructor
    · intro v' i' r' hv
      cases hv
      rcases hsf v i r h with ⟨j, hij, hj3, hjf⟩
      refine ⟨j, ?_, hj3, hjf⟩
      rcases Nat.eq_or_lt_of_le hij with he | hl
      · exfalso
        subst he
        have hft : c.free ⟨i, hi⟩ = true := hjf
        rw [hf] at hft
        simp at hft
      · omega
    · simp
  | scanExhaustPanic v i r hi h hbl =>
    exfalso
    rcases hsf v i r h with ⟨j, hij, hj3, -⟩
    omega
  | scanExhaustRetry v i r hi h hbl hr =>
    cases hbl
  | scanExhaustYield v i r hi h hbl hr =>
    cases hbl
  | yieldDone v r h =>
    constructor
    · intro v' i' r' hv
      clear hnp
      cases hv
      rcases exists_free_of_wHold_none hinv.1 (by rw [h]; rfl) with ⟨j, hj⟩
      exact ⟨j.val, Nat.zero_le _, j.isLt, hj⟩
    · simp
  | storeStep v idx h =>
    constructor
    · intro v' i' r' hv
      cases hv
    · simp
  | publishStep v idx h =>
    constructor
    · intro v' i' r' hv
      cases hv
    · simp
  | relPrevSome b h =>
    constructor
    · intro v' i' r' hv
      cases hv
    · simp
  | relPrevNone h =>
    constructor
    · intro v' i' r' hv
      cases hv
    · simp
  | readSwapNone h hb =>
    exact ⟨hsf, hnp⟩
  | readSwapSome b h hb =>
    constructor
    · intro v' i' r' hv
      dsimp only at hv
      rcases hsf v' i' r' hv with ⟨j, hij, hj3, hjf⟩
      exact ⟨j, hij, hj3, hjf⟩
    · exact hnp
  | readClone b h =>
    constructor
    · intro v' i' r' hv
      dsimp only at hv
      rcases hsf v' i' r' hv with ⟨j, hij, hj3, hjf⟩
      exact ⟨j, hij, hj3, hjf⟩
    · exact hnp
  | readRelease b h =>
    constructor
    · intro v' i' r' hv
      dsimp only at hv
      rcases hsf v' i' r' hv with ⟨j, hij, hj3, hjf⟩
      refine ⟨j, hij, hj3, ?_⟩
      dsimp only
      rw [Function.update_apply]
      split_ifs with hjb
      · rfl
      · exact hjf
    · exact hnp

/-- Every reachable configuration of the wait-free instance satisfies the
full invariant, the scan invariant, and is not panicked. -/
theorem reach_ainv {T : Type} {init : T} {c : Config 3 T}
    (h : Reach false 3 init c) :
    Inv c ∧ ScanFree c ∧ c.wpc ≠ .panicked := by
  induction h with
  | refl =>
    refine ⟨inv_init0 3 init, ?_, by simp [init0]⟩
    intro v i r hv
    cases hv
  | tail hr hstep ih =>
    have hinv' := step_inv ih.1 hstep
    have hrest := step_ainv ih.1 ih.2.1 ih.2.2 hstep
    exact ⟨hinv', hrest.1, hrest.2⟩

/-- The cell index a write in progress has claimed, in the literal sense of
claim C4: the cell acquired by the `acquire` scan, from the moment the flag
swap claims it until the `buffer` swap publishes it. -/
def wClaim {n : Nat} {T : Type} : WPC n T → Option (Fin n)
  | .store _ idx => some idx
  | .publish _ idx => some idx
  | _ => none

/-- The three-role property exactly as claim C4 states it: the free cells,
the published cell (when the sentinel is absent) and the cell claimed by an
in-progress write are pairwise disjoint and together cover all three pool
indices. -/
def ThreeRoleProp {T : Type} (c : Config 3 T) : Prop :=
  (∀ i : Fin 3, c.free i = true ∨ c.buffer = some i ∨ wClaim c.wpc = some i) ∧
  (∀ i : Fin 3, ¬(c.free i = true ∧ c.buffer = some i)) ∧
  (∀ i : Fin 3, ¬(c.free i = true ∧ wClaim c.wpc = some i)) ∧
  (∀ i : Fin 3, ¬(c.buffer = some i ∧ wClaim c.wpc = some i))

/-- The four-role partition, spelled out: adding the cell held by an
in-progress read (between its `buffer` swap and its release) and counting
the previous published cell as still held by the writer between its
`buffer` swap and the release of that cell, the roles are pairwise disjoint
and together cover the pool. -/
def FourRoleProp {n : Nat} {T : Type} (c : Config n T) : Prop :=
  (∀ i : Fin n, c.free i = true ∨ c.buffer = some i ∨ wHold c.wpc = some i ∨
     rHold c.rpc = some i) ∧
  (∀ i : Fin n, ¬(c.free i = true ∧ c.buffer = some i)) ∧
  (∀ i : Fin n, ¬(c.free i = true ∧ wHold c.wpc = some i)) ∧
  (∀ i : Fin n, ¬(c.free i = true ∧ rHold c.rpc = some i)) ∧
  (∀ i : Fin n, ¬(c.buffer = some i ∧ wHold c.wpc = some i)) ∧
  (∀ i : Fin n, ¬(c.buffer = some i ∧ rHold c.rpc = some i)) ∧
  (∀ i : Fin n, ¬(wHold c.wpc = some i ∧ rHold c.rpc = some i))

theorem fourRole_of_partition {n : Nat} {T : Type} {c : Config n T}
    (hpart : Partition c) : FourRoleProp c := by
  refine ⟨?_, ?_, ?_, ?_, ?_, ?_, ?_⟩ <;> intro i <;> have hp := hpart i <;>
    rw [roleCount] at hp
  · by_contra hcon
    push_neg at hcon
    rw [if_neg hcon.1, if_neg hcon.2.1, if_neg hcon.2.2.1, if_neg hcon.2.2.2] at hp
    omega
  · rintro ⟨h1, h2⟩
    rw [if_pos h1, if_pos h2] at hp
    split_ifs at hp <;> omega
  · rintro ⟨h1, h2⟩
    rw [if_pos h1, if_pos h2] at hp
    split_ifs at hp <;> omega
  · rintro ⟨h1, h2⟩
    rw [if_pos h1, if_pos h2] at hp
    split_ifs at hp <;> omega
  · rintro ⟨h1, h2⟩
    rw [if_pos h1, if_pos h2] at hp
    split_ifs at hp <;> omega
  · rintro ⟨h1, h2⟩
    rw [if_pos h1, if_pos h2] at hp
    split_ifs at hp <;> omega
  · rintro ⟨h1, h2⟩
    rw [if_pos h1, if_pos h2] at hp
    split_ifs at hp <;> omega

/-- The configuration of the wait-free variant after `new(0)`, a complete
`write(22)`, and the first half of a `read` (the reader has swapped
`buffer` out and holds cell 0, about to clone it). -/
def cex : Config 3 Nat :=
  { pool := Function.update (fun _ => 0) 0 22,
    free := Function.update (fun _ => true) 0 false,
    buffer := none,
    wpc := .idle,
    rpc := .cloning 0,
    written := [22],
    delivered := [] }

theorem cex_reach : Reach false 3 (0 : Nat) cex :=
  .head (Step.beginWrite _ 22 rfl)
    (.head (Step.scanHit _ 22 0 0 (by omega) rfl rfl)
      (.head (Step.storeStep _ 22 _ rfl)
        (.head (Step.publishStep _ 22 _ rfl)
          (.head (Step.relPrevNone _ rfl)
            (.head (Step.readSwapSome _ _ rfl rfl) .refl)))))

/-- The configuration of the wait-free variant right after the writer has
begun `write(5)` from the fresh state (about to scan flag 0). -/
def cexScan : Config 3 Nat :=
  { pool := fun _ => 0, free := fun _ => true, buffer := none,
    wpc := .scan 5 0 0, rpc := .idle, written := [5], delivered := [] }

theorem cexScan_reach : Reach false 3 (0 : Nat) cexScan :=
  .head (Step.beginWrite _ 5 rfl) .refl

end PoolC

/-! ## Claims C4 and C5: the pool invariant and the unreachable panic -/

/-- C4, as stated, is false: the claim's three roles (free cells, the
published cell, the cell claimed by an in-progress write) do not cover the
pool at every reachable instant.  Counterexample: after `new(0)`, one
complete `write(22)` and the first half of a `read()` (the reader has
swapped `buffer` to the sentinel and holds cell 0 before cloning and
releasing it), cell 0 is in none of the claim's three sets: it is not free,
`buffer` is the sentinel, and no write is in progress. -/
theorem three_roles_do_not_cover :
    PoolC.Reach false 3 (0 : Nat) PoolC.cex ∧ ¬ PoolC.ThreeRoleProp PoolC.cex :=
  ⟨PoolC.cex_reach, by unfold PoolC.ThreeRoleProp; decide⟩

/-- C4, amended: in the wait-free 3-cell variant, at every reachable
configuration the free cells, the published cell, the cell held by the
in-progress write (the claimed cell from acquisition to the `buffer` swap,
then the captured previous cell until its release) and the cell held by the
in-progress read (from its `buffer` swap to its release) are pairwise
disjoint and together cover all three pool indices. -/
theorem four_roles_partition_pool :
    ∀ (T : Type) (init : T) (c : PoolC.Config 3 T),
      PoolC.Reach false 3 init c → PoolC.FourRoleProp c :=
  fun _ _ _ h => PoolC.fourRole_of_partition (PoolC.reach_inv h).1

/-- Witness for the amended C4 at a concrete input: the four-role partition
holds at the reachable mid-read configuration `cex` (where the claim's own
three roles fail to cover the pool). -/
theorem four_roles_partition_pool_witness : PoolC.FourRoleProp PoolC.cex :=
  four_roles_partition_pool Nat 0 PoolC.cex PoolC.cex_reach

/-- C5: in the wait-free 3-cell variant, in every reachable configuration
the `unreachable!()` branch of `acquire` has never executed (the writer is
never in the panicked state), and whenever the writer is scanning the free
flags, a flag at or after its current scan position is still true — so a
single scan always finds a free cell and `write` never fails from capacity
exhaustion. -/
theorem acquire_always_finds_free :
    ∀ (T : Type) (init : T) (c : PoolC.Config 3 T), PoolC.Reach false 3 init c →
      c.wpc ≠ PoolC.WPC.panicked ∧
      (∀ (v : T) (i r : Nat), c.wpc = PoolC.WPC.scan v i r →
        ∃ j : Nat, i ≤ j ∧ ∃ hj : j < 3, c.free ⟨j, hj⟩ = true) := by
  intro T init c h
  rcases PoolC.reach_ainv h with ⟨-, hsf, hnp⟩
  exact ⟨hnp, hsf⟩

/-- Witness for C5 at a concrete input: at the reachable configuration
where the writer has just begun `write(5)` (scan position 0), the writer is
not panicked and the scan finds flag 0 free. -/
theorem acquire_always_finds_free_witness :
    PoolC.cexScan.wpc ≠ PoolC.WPC.panicked ∧
    ∃ j : Nat, 0 ≤ j ∧ ∃ hj : j < 3, PoolC.cexScan.free ⟨j, hj⟩ = true := by
  have h := acquire_always_finds_free Nat 0 PoolC.cexScan PoolC.cexScan_reach
  exact ⟨h.1, h.2 5 0 0 rfl⟩

/-! ## Interleaved small-step model of the single-buffer variants

`mutex_spsc` and `ticket_spsc` share the `Inner { data, to_read }` design;
they differ only in the mutual-exclusion primitive guarding `data`
(`std::sync::Mutex` versus `TicketMutex`, whose mutual exclusion is proved
below).  The model makes lock ownership explicit (`holder`) and splits each
operation at every shared-memory access: the writer's `write(v)` is
lock-acquire, store, flag-set, unlock (`mutex_spsc.rs` lines 31-35,
`ticket_spsc.rs` lines 93-97); the reader's `read` is the lock-free flag
check, then (only when the flag was true) lock-acquire, clone, flag-clear,
unlock (`mutex_spsc.rs` lines 37-46, `ticket_spsc.rs` lines 99-108). -/

namespace BufC

/-- Writer program counter inside `Inner::write`. -/
inductive BWPC (T : Type) where
  | idle
  | lockW (v : T)
  | storeW (v : T)
  | flagW (v : T)
  | unlockW
deriving DecidableEq

/-- Reader program counter inside `Inner::read`. -/
inductive BRPC where
  | idle
  | lockR
  | cloneR
  | clearR
  | unlockR
deriving DecidableEq

/-- A global configuration of a single-buffer exchange: the shared cell and
flag, the lock owner (`some true` = writer, `some false` = reader), both
program counters and the ghost history. -/
structure Config (T : Type) where
  data : T
  to_read : Bool
  holder : Option Bool
  wpc : BWPC T
  rpc : BRPC
  written : List T
  delivered : List T

/-- The configuration right after `new(init)`. -/
def init0 {T : Type} (init : T) : Config T :=
  { data := init, to_read := false, holder := none,
    wpc := .idle, rpc := .idle, written := [], delivered := [] }

/-- One interleaved step of the two threads of a single-buffer exchange. -/
inductive Step {T : Type} : Config T → Config T → Prop where
  /-- The writer begins `write(v)` (ghost-recorded). -/
  | beginWrite (c : Config T) (v : T) (h : c.wpc = .idle) :
      Step c { c with wpc := .lockW v, written := c.written ++ [v] }
  /-- The writer acquires the free lock. -/
  | wAcquire (c : Config T) (v : T) (h : c.wpc = .lockW v) (hl : c.holder = none) :
      Step c { c with holder := some true, wpc := .storeW v }
  /-- `*data = value`. -/
  | wStore (c : Config T) (v : T) (h : c.wpc = .storeW v) :
      Step c { c with data := v, wpc := .flagW v }
  /-- `to_read.store(true, Release)`. -/
  | wFlag (c : Config T) (v : T) (h : c.wpc = .flagW v) :
      Step c { c with to_read := true, wpc := .unlockW }
  /-- The writer's guard drops: unlock. -/
  | wUnlock (c : Config T) (h : c.wpc = .unlockW) :
      Step c { c with holder := none, wpc := .idle }
  /-- `to_read.load(Acquire)` returned false: `read` returns false at once,
  never touching the lock, the cell or the out-parameter. -/
  | rCheckFalse (c : Config T) (h : c.rpc = .idle) (hf : c.to_read = false) :
      Step c c
  /-- `to_read.load(Acquire)` returned true: proceed to lock. -/
  | rCheckTrue (c : Config T) (h : c.rpc = .idle) (hf : c.to_read = true) :
      Step c { c with rpc := .lockR }
  /-- The reader acquires the free lock. -/
  | rAcquire (c : Config T) (h : c.rpc = .lockR) (hl : c.holder = none) :
      Step c { c with holder := some false, rpc := .cloneR }
  /-- `*value = T::clone(&data)` (ghost-recorded as delivered). -/
  | rClone (c : Config T) (h : c.rpc = .cloneR) :
      Step c { c with delivered := c.delivered ++ [c.data], rpc := .clearR }
  /-- `to_read.store(false, Release)`. -/
  | rClear (c : Config T) (h : c.rpc = .clearR) :
      Step c { c with to_read := false, rpc := .unlockR }
  /-- The reader's guard drops: unlock. -/
  | rUnlock (c : Config T) (h : c.rpc = .unlockR) :
      Step c { c with holder := none, rpc := .idle }

/-- Configurations reachable from `new(init)` by interleaved steps. -/
def Reach {T : Type} (init : T) (c : Config T) : Prop :=
  Relation.ReflTransGen Step (init0 init) c

/-- The inductive invariant of the single-buffer exchanges: whenever the
unread flag is set the cell holds a written value, the writer's in-flight
value is written, after the store the cell holds it, the reader only
reaches its critical section while the flag is set, and everything
delivered was written. -/
def BInv {T : Type} (c : Config T) : Prop :=
  (c.to_read = true → c.data ∈ c.written) ∧
  (∀ v : T, c.wpc = .lockW v → v ∈ c.written) ∧
  (∀ v : T, c.wpc = .storeW v → v ∈ c.written) ∧
  (∀ v : T, c.wpc = .flagW v → c.data = v ∧ v ∈ c.written) ∧
  ((c.rpc = .lockR ∨ c.rpc = .cloneR) → c.to_read = true) ∧
  (∀ x : T, x ∈ c.delivered → x ∈ c.written)

theorem binv_init0 {T : Type} (init : T) : BInv (init0 init) := by
  refine ⟨?_, ?_, ?_, ?_, ?_, ?_⟩ <;> intros <;> simp_all [init0]

theorem step_binv {T : Type} {c c' : Config T} (hinv : BInv c) (hstep : Step c c') :
    BInv c' := by
  rcases hinv with ⟨hflag, hlw, hsw, hfw, hrcs, hdel⟩
  cases hstep with
  | beginWrite v h =>
    refine ⟨?_, ?_, ?_, ?_, ?_, ?_⟩
    · intro ht
      exact List.mem_append_left _ (hflag ht)
    · intro v' hv
      cases hv
      simp
    · intro v' hv
      cases hv
    · intro v' hv
      cases hv
    · exact hrcs
    · intro x hx
      exact List.mem_append_left _ (hdel x hx)
  | wAcquire v h hl =>
    refine ⟨hflag, ?_, ?_, ?_, hrcs, hdel⟩
    · intro v' hv
      cases hv
    · intro v' hv
      cases hv
      exact hlw v h
    · intro v' hv
      cases hv
  | wStore v h =>
    refine ⟨?_, ?_, ?_, ?_, hrcs, hdel⟩
    · intro ht
      exact hsw v h
    · intro v' hv
      cases hv
    · intro v' hv
      cases hv
    · intro v' hv
      cases hv
      exact ⟨rfl, hsw v h⟩
  | wFlag v h =>
    refine ⟨?_, ?_, ?_, ?_, ?_, hdel⟩
    · intro ht
      exact (hfw v h).1 ▸ (hfw v h).2
    · intro v' hv
      cases hv
    · intro v' hv
      cases hv
    · intro v' hv
      cases hv
    · intro hr
      rfl
  | wUnlock h =>
    refine ⟨hflag, ?_, ?_, ?_, hrcs, hdel⟩
    · intro v' hv
      cases hv
    · intro v' hv
      cases hv
    · intro v' hv
      cases hv
  | rCheckFalse h hf =>
    exact ⟨hflag, hlw, hsw, hfw, hrcs, hdel⟩
  | rCheckTrue h hf =>
    refine ⟨hflag, hlw, hsw, hfw, ?_, hdel⟩
    intro hr
    exact hf
  | rAcquire h hl =>
    refine ⟨hflag, hlw, hsw, hfw, ?_, hdel⟩
    intro hr
    exact hrcs (Or.inl h)
  | rClone h =>
    refine ⟨hflag, hlw, hsw, hfw, ?_, ?_⟩
    · intro hr
      rcases hr with hr | hr <;> cases hr
    · intro x hx
      rcases List.mem_append.mp hx with hx | hx
      · exact hdel x hx
      · have hxe : x = c.data := by simpa using hx
        subst hxe
        exact hflag (hrcs (Or.inr h))
  | rClear h =>
    refine ⟨?_, hlw, hsw, ?_, ?_, hdel⟩
    · intro ht
      cases ht
    · intro v' hv
      exact ⟨(hfw v' hv).1, (hfw v' hv).2⟩
    · intro hr
      rcases hr with hr | hr <;> cases hr
  | rUnlock h =>
    refine ⟨hflag, hlw, hsw, hfw, ?_, hdel⟩
    intro hr
    rcases hr with hr | hr <;> cases hr

/-- The invariant holds in every reachable configuration of a single-buffer
exchange. -/
theorem reach_binv {T : Type} {init : T} {c : Config T} (h : Reach init c) :
    BInv c := by
  induction h with
  | refl => exact binv_init0 init
  | tail hr hstep ih => exact step_binv ih hstep

end BufC

/-! ## Claim C6: no crashes, no torn or fabricated values -/

namespace PoolC

/-- The blocking instance has no panic transition at all: its exhausted
scan retries instead. -/
theorem reach_no_panic_blocking {n : Nat} {T : Type} {init : T} {c : Config n T}
    (h : Reach true n init c) : c.wpc ≠ .panicked := by
  induction h with
  | refl => simp [init0]
  | tail hr hstep ih => cases hstep <;> simp_all

/-- The wait-free configuration after `new(0)`, a complete `write(22)` and
a read up to (and including) the clone: value 22 has been delivered. -/
def cexRead : Config 3 Nat :=
  { cex with rpc := .releasing 0, delivered := [22] }

theorem cexRead_reach : Reach false 3 (0 : Nat) cexRead :=
  cex_reach.tail (Step.readClone _ 0 rfl)

end PoolC

namespace BufC

/-- A single-buffer configuration after `new(0)`, a complete `write(9)` and
a read up to (and including) the clone: value 9 has been delivered. -/
def bufCex : Config Nat :=
  { data := 9, to_read := true, holder := some false,
    wpc := .idle, rpc := .clearR, written := [9], delivered := [9] }

theorem bufCex_reach : Reach (0 : Nat) bufCex :=
  .head (Step.beginWrite _ 9 rfl)
    (.head (Step.wAcquire _ 9 rfl rfl)
      (.head (Step.wStore _ 9 rfl)
        (.head (Step.wFlag _ 9 rfl)
          (.head (Step.wUnlock _ rfl)
            (.head (Step.rCheckTrue _ rfl rfl)
              (.head (Step.rAcquire _ rfl rfl)
                (.head (Step.rClone _ rfl) .refl)))))))

end BufC

/-- C6: under one writer thread and one reader thread interleaving
arbitrarily (any number of operations), no execution crashes — the
wait-free variant never reaches its `unreachable!()` and the blocking
variant has no panic at all — and every value a read delivers was passed in
full to some prior or concurrent `write` call.  Values are whole at every
step of the models (one step stores or clones a complete value), so no torn
or fabricated value can be delivered; the conjuncts state it for the
wait-free 3-cell instance, the bounded-spin 2-cell instance, and the
single-buffer model shared by `mutex_spsc` and `ticket_spsc` (whose lock
operations have no failure path absent abnormal termination). -/
theorem no_torn_or_fabricated_values :
    (∀ (T : Type) (init : T) (c : PoolC.Config 3 T), PoolC.Reach false 3 init c →
       (∀ x ∈ c.delivered, x ∈ c.written) ∧ c.wpc ≠ PoolC.WPC.panicked) ∧
    (∀ (T : Type) (init : T) (c : PoolC.Config 2 T), PoolC.Reach true 2 init c →
       (∀ x ∈ c.delivered, x ∈ c.written) ∧ c.wpc ≠ PoolC.WPC.panicked) ∧
    (∀ (T : Type) (init : T) (c : BufC.Config T), BufC.Reach init c →
       ∀ x ∈ c.delivered, x ∈ c.written) := by
  refine ⟨?_, ?_, ?_⟩
  · intro T init c h
    rcases PoolC.reach_ainv h with ⟨⟨-, hvals⟩, -, hnp⟩
    exact ⟨hvals.2.2.2.2.2.2, hnp⟩
  · intro T init c h
    rcases PoolC.reach_inv h with ⟨-, hvals⟩
    exact ⟨hvals.2.2.2.2.2.2, PoolC.reach_no_panic_blocking h⟩
  · intro T init c h
    exact (BufC.reach_binv h).2.2.2.2.2

/-- Witness for C6 at concrete inputs: in the wait-free model the reachable
configuration `cexRead` has delivered exactly the written 22 and is not
panicked; the fresh blocking configuration is not panicked; and in the
single-buffer model the reachable configuration `bufCex` has delivered
exactly the written 9. -/
theorem no_torn_or_fabricated_values_witness :
    ((∀ x ∈ PoolC.cexRead.delivered, x ∈ PoolC.cexRead.written) ∧
      PoolC.cexRead.wpc ≠ PoolC.WPC.panicked) ∧
    ((PoolC.init0 2 (0 : Nat)).wpc ≠ PoolC.WPC.panicked) ∧
    (∀ x ∈ BufC.bufCex.delivered, x ∈ BufC.bufCex.written) := by
  refine ⟨?_, ?_, ?_⟩
  · exact no_torn_or_fabricated_values.1 Nat 0 PoolC.cexRead PoolC.cexRead_reach
  · exact (no_torn_or_fabricated_values.2.1 Nat 0 (PoolC.init0 2 0) .refl).2
  · exact no_torn_or_fabricated_values.2.2 Nat 0 BufC.bufCex BufC.bufCex_reach

/-! ## Claim C9: the bounded-spin writer's retry policy and the read path -/

namespace PoolC

/-- A 2-cell configuration with the writer in an exhausted scan (both flags
busy) of `write(3)` at attempt 21 (past the busy-retry threshold). -/
def stalled : Config 2 Nat :=
  { pool := fun _ => 0, free := fun _ => false, buffer := none,
    wpc := .scan 3 2 21, rpc := .cloning 0, written := [3], delivered := [] }

/-- A reachable 2-cell configuration with the writer about to publish
`write(7)`'s claimed cell 0. -/
def prePub : Config 2 Nat :=
  { pool := Function.update (fun _ => 0) 0 7,
    free := Function.update (fun _ => true) 0 false, buffer := none,
    wpc := .publish 7 0, rpc := .idle, written := [7], delivered := [] }

theorem prePub_reach : Reach true 2 (0 : Nat) prePub :=
  .head (Step.beginWrite _ 7 rfl)
    (.head (Step.scanHit _ 7 0 0 (by omega) rfl rfl)
      (.head (Step.storeStep _ 7 _ rfl) .refl))

end PoolC

/-- C9: in the 2-cell bounded-spin variant (`blocking_spsc`), the writer's
`write(v)` handles an exhausted free-cell scan (every flag busy, `acquire`
returning `-1`) by retrying: during the first 20 failed attempts it rescans
at once, from attempt 20 onward it yields the scheduling slot between
further rescans, and a retry transition exists from every exhausted scan,
at every attempt count, indefinitely.  When a scan does claim a cell, the
claimed cell holds `v` at the moment of publication and the `buffer` swap
publishes its index.  The read path is the same three transitions for both
pool instances (the same constructors, for either value of `bl`) and never
waits: each of them is enabled regardless of the writer's state, so a read
completes in at most three steps. -/
theorem blocking_write_retries_then_yields :
    (∀ (T : Type) (c c' : PoolC.Config 2 T) (v : T) (i r : Nat),
       c.wpc = PoolC.WPC.scan v i r → 2 ≤ i → PoolC.Step true c c' →
       c'.wpc ≠ c.wpc →
       (r < 20 → c'.wpc = PoolC.WPC.scan v 0 (r + 1)) ∧
       (20 ≤ r → c'.wpc = PoolC.WPC.yielding v (r + 1))) ∧
    (∀ (T : Type) (c : PoolC.Config 2 T) (v : T) (i r : Nat),
       c.wpc = PoolC.WPC.scan v i r → 2 ≤ i →
       ∃ c', PoolC.Step true c c' ∧ c'.wpc ≠ c.wpc) ∧
    (∀ (T : Type) (c : PoolC.Config 2 T) (v : T) (r : Nat),
       c.wpc = PoolC.WPC.yielding v r →
       PoolC.Step true c { c with wpc := PoolC.WPC.scan v 0 r }) ∧
    (∀ (T : Type) (init : T) (c : PoolC.Config 2 T) (v : T) (idx : Fin 2),
       PoolC.Reach true 2 init c → c.wpc = PoolC.WPC.publish v idx →
       c.pool idx = v ∧
       PoolC.Step true c { c with wpc := PoolC.WPC.relPrev c.buffer,
                                  buffer := some idx }) ∧
    (∀ (bl : Bool) (T : Type) (c : PoolC.Config 2 T),
       (c.rpc = PoolC.RPC.idle → ∃ c', PoolC.Step bl c c') ∧
       (∀ b, c.rpc = PoolC.RPC.cloning b →
          PoolC.Step bl c { c with rpc := PoolC.RPC.releasing b,
                                   delivered := c.delivered ++ [c.pool b] }) ∧
       (∀ b, c.rpc = PoolC.RPC.releasing b →
          PoolC.Step bl c { c with rpc := PoolC.RPC.idle,
                                   free := Function.update c.free b true })) := by
  refine ⟨?_, ?_, ?_, ?_, ?_⟩
  · intro T c c' v i r hw hi hstep hne
    cases hstep <;> (try simp_all) <;> (try omega)
  · intro T c v i r hw hi
    by_cases hr : r < 20
    · refine ⟨_, PoolC.Step.scanExhaustRetry c v i r hi hw rfl hr, ?_⟩
      simp only [hw]
      intro hcon
      cases hcon
    · refine ⟨_, PoolC.Step.scanExhaustYield c v i r hi hw rfl (by omega), ?_⟩
      simp [hw]
  · intro T c v r hw
    exact PoolC.Step.yieldDone c v r hw
  · intro T init c v idx hreach hw
    rcases PoolC.reach_inv hreach with ⟨-, hvals⟩
    exact ⟨(hvals.2.2.2.2.1 v idx hw).1, PoolC.Step.publishStep c v idx hw⟩
  · intro bl T c
    refine ⟨?_, ?_, ?_⟩
    · intro hr
      cases hb : c.buffer with
      | none => exact ⟨c, PoolC.Step.readSwapNone c hr hb⟩
      | some b => exact ⟨_, PoolC.Step.readSwapSome c b hr hb⟩
    · intro b hr
      exact PoolC.Step.readClone c b hr
    · intro b hr
      exact PoolC.Step.readRelease c b hr

/-- Witness for C9 at concrete inputs: from the exhausted-scan
configuration `stalled` (attempt 21) the writer's next transition is the
yield; a retrying transition exists there; and at the reachable
configuration `prePub` the claimed cell 0 holds the written 7 and the
publish step is enabled; the reader's clone transition is enabled at
`stalled` no matter the writer's state. -/
theorem blocking_write_retries_then_yields_witness :
    (PoolC.Step true PoolC.stalled
        { PoolC.stalled with wpc := PoolC.WPC.yielding 3 22 } →
      (21 < 20 → ({ PoolC.stalled with
          wpc := PoolC.WPC.yielding 3 22 } : PoolC.Config 2 Nat).wpc =
            PoolC.WPC.scan 3 0 22) ∧
      (20 ≤ 21 → ({ PoolC.stalled with
          wpc := PoolC.WPC.yielding 3 22 } : PoolC.Config 2 Nat).wpc =
            PoolC.WPC.yielding 3 22)) ∧
    (∃ c', PoolC.Step true PoolC.stalled c' ∧ c'.wpc ≠ PoolC.stalled.wpc) ∧
    (PoolC.prePub.pool 0 = 7 ∧
      PoolC.Step true PoolC.prePub
        { PoolC.prePub with wpc := PoolC.WPC.relPrev PoolC.prePub.buffer,
                            buffer := some 0 }) ∧
    PoolC.Step true PoolC.stalled
      { PoolC.stalled with rpc := PoolC.RPC.releasing 0,
                           delivered := [PoolC.stalled.pool 0] } := by
  refine ⟨?_, ?_, ?_, ?_⟩
  · intro hstep
    exact blocking_write_retries_then_yields.1 Nat PoolC.stalled _ 3 2 21 rfl
      (by omega) hstep (by decide)
  · exact blocking_write_retries_then_yields.2.1 Nat PoolC.stalled 3 2 21 rfl (by omega)
  · exact blocking_write_retries_then_yields.2.2.2.1 Nat 0 PoolC.prePub 7 0
      PoolC.prePub_reach rfl
  · exact (blocking_write_retries_then_yields.2.2.2.2 true Nat PoolC.stalled).2.1 0 rfl

/-! ## Two-client small-step model of `TicketMutex`

`TicketMutex` (`src/src/ticket_spsc.rs` lines 8-37) is exercised by exactly
two threads (the writer's and the reader's `Inner` methods).  Each client is
idle, waiting on a dispensed ticket, or inside the critical section.
`lock` = one `fetch_add(1)` on the `u64` `next_ticket` (wrapping, modelled
`% 2^64`) dispensing the ticket, followed by the spin `while
now_serving.load != ticket`, which terminates exactly when `now_serving`
equals the ticket — the `enter` transition; `unlock` (from `TicketGuard`'s
`Drop`) stores `now_serving + 1` (wrapping).  The ghost field `dispensed`
records every dispensed ticket in order. -/

namespace TicketC

open ticket_spsc (U64)

/-- Status of one client of the ticket lock. -/
inductive TStat where
  | idle
  | waiting (t : Nat)
  | cs (t : Nat)
deriving DecidableEq

/-- A configuration of the ticket lock with its two clients and the ghost
dispensing history. -/
structure Config where
  now_serving : Nat
  next_ticket : Nat
  thrA : TStat
  thrB : TStat
  dispensed : List Nat
deriving DecidableEq

/-- Both counters start at 0 (`TicketMutex::new`, lines 17-23). -/
def init0 : Config :=
  { now_serving := 0, next_ticket := 0, thrA := .idle, thrB := .idle,
    dispensed := [] }

/-- One step of either client. -/
inductive Step : Config → Config → Prop where
  /-- Client A's `fetch_add(1, Relaxed)` on `next_ticket`. -/
  | takeA (c : Config) (h : c.thrA = .idle) :
      Step c { c with thrA := .waiting c.next_ticket,
                      next_ticket := (c.next_ticket + 1) % U64,
                      dispensed := c.dispensed ++ [c.next_ticket] }
  /-- Client B's `fetch_add(1, Relaxed)` on `next_ticket`. -/
  | takeB (c : Config) (h : c.thrB = .idle) :
      Step c { c with thrB := .waiting c.next_ticket,
                      next_ticket := (c.next_ticket + 1) % U64,
                      dispensed := c.dispensed ++ [c.next_ticket] }
  /-- Client A's spin observes `now_serving == ticket`: it enters the
  critical section. -/
  | enterA (c : Config) (t : Nat) (h : c.thrA = .waiting t)
      (hs : c.now_serving = t) :
      Step c { c with thrA := .cs t }
  /-- Client B enters the critical section. -/
  | enterB (c : Config) (t : Nat) (h : c.thrB = .waiting t)
      (hs : c.now_serving = t) :
      Step c { c with thrB := .cs t }
  /-- Client A's guard drops: `unlock` stores `now_serving + 1`. -/
  | exitA (c : Config) (t : Nat) (h : c.thrA = .cs t) :
      Step c { c with thrA := .idle,
                      now_serving := (c.now_serving + 1) % U64 }
  /-- Client B's guard drops. -/
  | exitB (c : Config) (t : Nat) (h : c.thrB = .cs t) :
      Step c { c with thrB := .idle,
                      now_serving := (c.now_serving + 1) % U64 }

/-- Configurations reachable from the fresh lock. -/
def Reach (c : Config) : Prop :=
  Relation.ReflTransGen Step init0 c

/-- The ticket a non-idle client holds. -/
def Active : TStat → Option Nat
  | .idle => none
  | .waiting t => some t
  | .cs t => some t

/-- The queue discipline: nobody active and the counters agree; or one
client holds ticket `now_serving`; or additionally the other client waits
on ticket `now_serving + 1`. -/
def Phase (c : Config) : Prop :=
  (c.thrA = .idle ∧ c.thrB = .idle ∧ c.next_ticket = c.now_serving) ∨
  (Active c.thrA = some c.now_serving ∧ c.thrB = .idle ∧
     c.next_ticket = (c.now_serving + 1) % U64) ∨
  (Active c.thrB = some c.now_serving ∧ c.thrA = .idle ∧
     c.next_ticket = (c.now_serving + 1) % U64) ∨
  (Active c.thrA = some c.now_serving ∧
     c.thrB = .waiting ((c.now_serving + 1) % U64) ∧
     c.next_ticket = (c.now_serving + 2) % U64) ∨
  (Active c.thrB = some c.now_serving ∧
     c.thrA = .waiting ((c.now_serving + 1) % U64) ∧
     c.next_ticket = (c.now_serving + 2) % U64)

/-- The inductive invariant of the ticket lock. -/
def TInv (c : Config) : Prop :=
  c.now_serving < U64 ∧ c.next_ticket < U64 ∧
  c.next_ticket = c.dispensed.length % U64 ∧
  c.dispensed = (List.range c.dispensed.length).map (fun k => k % U64) ∧
  Phase c

theorem hU64 : 0 < U64 := by
  rw [ticket_spsc.U64]
  positivity

theorem two_le_U64 : 2 ≤ U64 := by
  rw [ticket_spsc.U64]
  norm_num

/-- With counters below the wrap bound, bumping `now_serving` always
changes it: the next ticket is never the current one. -/
theorem succ_mod_ne {a : Nat} (ha : a < U64) : (a + 1) % U64 ≠ a := by
  rcases Nat.lt_or_ge (a + 1) U64 with h1 | h1
  · rw [Nat.mod_eq_of_lt h1]
    omega
  · have he : a + 1 = U64 := by omega
    rw [he, Nat.mod_self]
    have := two_le_U64
    omega

theorem tinv_init0 : TInv init0 := by
  refine ⟨hU64, hU64, rfl, rfl, Or.inl ⟨rfl, rfl, rfl⟩⟩

theorem step_tinv {c c' : Config} (hinv : TInv c) (hstep : Step c c') :
    TInv c' := by
  obtain ⟨hns, hnt, hlen, hdisp, hphase⟩ := hinv
  cases hstep with
  | takeA h =>
    refine ⟨hns, Nat.mod_lt _ hU64, ?_, ?_, ?_⟩
    · simp only [List.length_append, List.length_singleton]
      rw [hlen, Nat.mod_add_mod]
    · simp only [List.length_append, List.length_singleton]
      rw [List.range_succ, List.map_append]
      simp only [List.map_cons, List.map_nil]
      rw [← hdisp, ← hlen]
    · rcases hphase with ⟨ha, hb, he⟩ | ⟨ha, hb, he⟩ | ⟨hb, ha, he⟩ |
        ⟨ha, hb, he⟩ | ⟨hb, ha, he⟩
      · refine Or.inr (Or.inl ⟨?_, hb, ?_⟩)
        · simp [Active, he]
        · simp [he]
      · rw [h] at ha
        simp [Active] at ha
      · refine Or.inr (Or.inr (Or.inr (Or.inr ⟨hb, ?_, ?_⟩)))
        · simp [he]
        · simp only [he, Nat.mod_add_mod]
      · rw [h] at ha
        simp [Active] at ha
      · rw [h] at ha
        simp at ha
  | takeB h =>
    refine ⟨hns, Nat.mod_lt _ hU64, ?_, ?_, ?_⟩
    · simp only [List.length_append, List.length_singleton]
      rw [hlen, Nat.mod_add_mod]
    · simp only [List.length_append, List.length_singleton]
      rw [List.range_succ, List.map_append]
      simp only [List.map_cons, List.map_nil]
      rw [← hdisp, ← hlen]
    · rcases hphase with ⟨ha, hb, he⟩ | ⟨ha, hb, he⟩ | ⟨hb, ha, he⟩ |
        ⟨ha, hb, he⟩ | ⟨hb, ha, he⟩
      · refine Or.inr (Or.inr (Or.inl ⟨?_, ha, ?_⟩))
        · simp [Active, he]
        · simp [he]
      · refine Or.inr (Or.inr (Or.inr (Or.inl ⟨ha, ?_, ?_⟩)))
        · simp [he]
        · simp only [he, Nat.mod_add_mod]
      · rw [h] at hb
        simp [Active] at hb
      · rw [h] at hb
        simp at hb
      · rw [h] at hb
        simp [Active] at hb
  | enterA t h hs =>
    refine ⟨hns, hnt, hlen, hdisp, ?_⟩
    rcases hphase with ⟨ha, hb, he⟩ | ⟨ha, hb, he⟩ | ⟨hb, ha, he⟩ |
      ⟨ha, hb, he⟩ | ⟨hb, ha, he⟩
    · rw [h] at ha
      cases ha
    · refine Or.inr (Or.inl ⟨?_, hb, he⟩)
      rw [h] at ha
      simpa [Active] using ha
    · rw [h] at ha
      cases ha
    · refine Or.inr (Or.inr (Or.inr (Or.inl ⟨?_, hb, he⟩)))
      rw [h] at ha
      simpa [Active] using ha
    · rw [h] at ha
      cases ha
      exact absurd hs.symm (succ_mod_ne hns)
  | enterB t h hs =>
    refine ⟨hns, hnt, hlen, hdisp, ?_⟩
    rcases hphase with ⟨ha, hb, he⟩ | ⟨ha, hb, he⟩ | ⟨hb, ha, he⟩ |
      ⟨ha, hb, he⟩ | ⟨hb, ha, he⟩
    · rw [h] at hb
      cases hb
    · rw [h] at hb
      cases hb
    · refine Or.inr (Or.inr (Or.inl ⟨?_, ha, he⟩))
      rw [h] at hb
      simpa [Active] using hb
    · rw [h] at hb
      cases hb
      exact absurd hs.symm (succ_mod_ne hns)
    · refine Or.inr (Or.inr (Or.inr (Or.inr ⟨?_, ha, he⟩)))
      rw [h] at hb
      simpa [Active] using hb
  | exitA t h =>
    refine ⟨Nat.mod_lt _ hU64, hnt, hlen, hdisp, ?_⟩
    rcases hphase with ⟨ha, hb, he⟩ | ⟨ha, hb, he⟩ | ⟨hb, ha, he⟩ |
      ⟨ha, hb, he⟩ | ⟨hb, ha, he⟩
    · rw [h] at ha
      cases ha
    · exact Or.inl ⟨rfl, hb, by rw [he]⟩
    · rw [h] at ha
      cases ha
    · refine Or.inr (Or.inr (Or.inl ⟨?_, rfl, ?_⟩))
      · rw [hb]
        simp [Active]
      · rw [he, Nat.mod_add_mod]
    · rw [h] at ha
      cases ha
  | exitB t h =>
    refine ⟨Nat.mod_lt _ hU64, hnt, hlen, hdisp, ?_⟩
    rcases hphase with ⟨ha, hb, he⟩ | ⟨ha, hb, he⟩ | ⟨hb, ha, he⟩ |
      ⟨ha, hb, he⟩ | ⟨hb, ha, he⟩
    · rw [h] at hb
      cases hb
    · rw [h] at hb
      cases hb
    · exact Or.inl ⟨ha, rfl, by rw [he]⟩
    · rw [h] at hb
      cases hb
    · refine Or.inr (Or.inl ⟨?_, rfl, ?_⟩)
      · rw [ha]
        simp [Active]
      · rw [he, Nat.mod_add_mod]

theorem reach_tinv {c : Config} (h : Reach c) : TInv c := by
  induction h with
  | refl => exact tinv_init0
  | tail hr hstep ih => exact step_tinv ih hstep

/-- Mutual exclusion and the serving discipline, read off the invariant. -/
theorem cs_now_serving {c : Config} (hinv : TInv c) :
    (∀ t, c.thrA = TStat.cs t → c.now_serving = t) ∧
    (∀ t, c.thrB = TStat.cs t → c.now_serving = t) ∧
    ¬ (∃ ta tb, c.thrA = TStat.cs ta ∧ c.thrB = TStat.cs tb) := by
  obtain ⟨hns, -, -, -, hphase⟩ := hinv
  rcases hphase with ⟨ha, hb, he⟩ | ⟨ha, hb, he⟩ | ⟨hb, ha, he⟩ |
    ⟨ha, hb, he⟩ | ⟨hb, ha, he⟩
  · refine ⟨?_, ?_, ?_⟩
    · intro t ht
      rw [ha] at ht
      cases ht
    · intro t ht
      rw [hb] at ht
      cases ht
    · rintro ⟨ta, tb, hta, -⟩
      rw [ha] at hta
      cases hta
  · refine ⟨?_, ?_, ?_⟩
    · intro t ht
      rw [ht] at ha
      simpa [Active] using ha.symm
    · intro t ht
      rw [hb] at ht
      cases ht
    · rintro ⟨ta, tb, -, htb⟩
      rw [hb] at htb
      cases htb
  · refine ⟨?_, ?_, ?_⟩
    · intro t ht
      rw [ha] at ht
      cases ht
    · intro t ht
      rw [ht] at hb
      simpa [Active] using hb.symm
    · rintro ⟨ta, tb, hta, -⟩
      rw [ha] at hta
      cases hta
  · refine ⟨?_, ?_, ?_⟩
    · intro t ht
      rw [ht] at ha
      simpa [Active] using ha.symm
    · intro t ht
      rw [hb] at ht
      cases ht
    · rintro ⟨ta, tb, -, htb⟩
      rw [hb] at htb
      cases htb
  · refine ⟨?_, ?_, ?_⟩
    · intro t ht
      rw [ha] at ht
      cases ht
    · intro t ht
      rw [ht] at hb
      simpa [Active] using hb.symm
    · rintro ⟨ta, tb, hta, -⟩
      rw [ha] at hta
      cases hta

/-- A reachable configuration exercising every part of claim C8: A locked
(ticket 0), entered, B took ticket 1, A exited. -/
def cexT : Config :=
  { now_serving := 1 % U64, next_ticket := (1 % U64 + 1) % U64,
    thrA := .idle, thrB := .waiting (1 % U64), dispensed := [0, 1 % U64] }

theorem cexT_reach : Reach cexT :=
  .head (Step.takeA _ rfl)
    (.head (Step.enterA _ 0 rfl rfl)
      (.head (Step.takeB _ rfl)
        (.head (Step.exitA _ 0 rfl) .refl)))

end TicketC

/-- C8: the ticket lock of `ticket_spsc` dispenses tickets in strictly
increasing order with no gaps — the ghost history of dispensed tickets is
always `0 % 2^64, 1 % 2^64, 2 % 2^64, ...` (the `k`-th `lock()` gets ticket
`k` wrapped at the `u64` bound, so within any `2^64` consecutive locks the
sequence is strictly increasing and gapless), and each `lock()` takes the
current `next_ticket` and increments it by one (mod `2^64`).  A client is
in the critical section only while `now_serving` equals its ticket, it
entered exactly when `now_serving` reached that ticket, each unlock
increments `now_serving` by exactly one (mod `2^64`), and at most one
client is ever inside the critical section. -/
theorem ticket_lock_fifo :
    ∀ c : TicketC.Config, TicketC.Reach c →
      (c.dispensed =
        (List.range c.dispensed.length).map (fun k => k % ticket_spsc.U64)) ∧
      (∀ t, c.thrA = TicketC.TStat.cs t → c.now_serving = t) ∧
      (∀ t, c.thrB = TicketC.TStat.cs t → c.now_serving = t) ∧
      (¬ ∃ ta tb, c.thrA = TicketC.TStat.cs ta ∧ c.thrB = TicketC.TStat.cs tb) ∧
      (∀ c', TicketC.Step c c' →
        (c'.dispensed ≠ c.dispensed →
          c'.dispensed = c.dispensed ++ [c.next_ticket] ∧
          c'.next_ticket = (c.next_ticket + 1) % ticket_spsc.U64) ∧
        (∀ t, ((c.thrA ≠ TicketC.TStat.cs t ∧ c'.thrA = TicketC.TStat.cs t) ∨
               (c.thrB ≠ TicketC.TStat.cs t ∧ c'.thrB = TicketC.TStat.cs t)) →
          c.now_serving = t) ∧
        (c'.now_serving ≠ c.now_serving →
          c'.now_serving = (c.now_serving + 1) % ticket_spsc.U64)) := by
  intro c hreach
  have hinv := TicketC.reach_tinv hreach
  have hcs := TicketC.cs_now_serving hinv
  refine ⟨hinv.2.2.2.1, hcs.1, hcs.2.1, hcs.2.2, ?_⟩
  intro c' hstep
  cases hstep with
  | takeA h =>
    refine ⟨fun _ => ⟨rfl, rfl⟩, ?_, fun hne => absurd rfl hne⟩
    intro t ht
    rcases ht with ⟨hnot, hcs'⟩ | ⟨hnot, hcs'⟩
    · cases hcs'
    · exact absurd hcs' hnot
  | takeB h =>
    refine ⟨fun _ => ⟨rfl, rfl⟩, ?_, fun hne => absurd rfl hne⟩
    intro t ht
    rcases ht with ⟨hnot, hcs'⟩ | ⟨hnot, hcs'⟩
    · exact absurd hcs' hnot
    · cases hcs'
  | enterA t h hs =>
    refine ⟨fun hne => absurd rfl hne, ?_, fun hne => absurd rfl hne⟩
    intro t' ht
    rcases ht with ⟨hnot, hcs'⟩ | ⟨hnot, hcs'⟩
    · dsimp only at hcs'
      cases hcs'
      exact hs
    · exact absurd hcs' hnot
  | enterB t h hs =>
    refine ⟨fun hne => absurd rfl hne, ?_, fun hne => absurd rfl hne⟩
    intro t' ht
    rcases ht with ⟨hnot, hcs'⟩ | ⟨hnot, hcs'⟩
    · exact absurd hcs' hnot
    · dsimp only at hcs'
      cases hcs'
      exact hs
  | exitA t h =>
    refine ⟨fun hne => absurd rfl hne, ?_, fun _ => rfl⟩
    intro t' ht
    rcases ht with ⟨hnot, hcs'⟩ | ⟨hnot, hcs'⟩
    · dsimp only at hcs'
      cases hcs'
    · exact absurd hcs' hnot
  | exitB t h =>
    refine ⟨fun hne => absurd rfl hne, ?_, fun _ => rfl⟩
    intro t' ht
    rcases ht with ⟨hnot, hcs'⟩ | ⟨hnot, hcs'⟩
    · exact absurd hcs' hnot
    · dsimp only at hcs'
      cases hcs'

/-- Witness for C8 at a concrete input: the full conclusion at the
reachable configuration where A locked with ticket 0, entered, B took
ticket 1, and A exited. -/
theorem ticket_lock_fifo_witness :
    (TicketC.cexT.dispensed = (List.range TicketC.cexT.dispensed.length).map
       (fun k => k % ticket_spsc.U64)) ∧
    (∀ t, TicketC.cexT.thrA = TicketC.TStat.cs t →
       TicketC.cexT.now_serving = t) ∧
    (∀ t, TicketC.cexT.thrB = TicketC.TStat.cs t →
       TicketC.cexT.now_serving = t) ∧
    (¬ ∃ ta tb, TicketC.cexT.thrA = TicketC.TStat.cs ta ∧
       TicketC.cexT.thrB = TicketC.TStat.cs tb) ∧
    (∀ c', TicketC.Step TicketC.cexT c' →
      (c'.dispensed ≠ TicketC.cexT.dispensed →
        c'.dispensed = TicketC.cexT.dispensed ++ [TicketC.cexT.next_ticket] ∧
        c'.next_ticket = (TicketC.cexT.next_ticket + 1) % ticket_spsc.U64) ∧
      (∀ t, ((TicketC.cexT.thrA ≠ TicketC.TStat.cs t ∧
                c'.thrA = TicketC.TStat.cs t) ∨
             (TicketC.cexT.thrB ≠ TicketC.TStat.cs t ∧
                c'.thrB = TicketC.TStat.cs t)) →
        TicketC.cexT.now_serving = t) ∧
      (c'.now_serving ≠ TicketC.cexT.now_serving →
        c'.now_serving = (TicketC.cexT.now_serving + 1) % ticket_spsc.U64)) :=
  ticket_lock_fifo TicketC.cexT TicketC.cexT_reach

/-! ## Claim C7: failure semantics after abnormal termination while holding
the lock

`mutex_spsc` guards its cell with `std::sync::Mutex`, whose guard, dropped
during a panic unwind, marks the mutex poisoned; `Mutex::lock` then returns
`Err(PoisonError)` forever after, and `Inner::write` / `Inner::read` call
`.unwrap()` on it (`mutex_spsc.rs` lines 32 and 39), turning the poison
into a panic in the calling thread.  A surfaced failure (a panic
propagating to the caller) is modelled as `Except.error ()`.

`TicketMutex` has no poison state: `lock` returns `Ok` unconditionally
(`ticket_spsc.rs` line 30), and a thread that panics while holding the
`TicketGuard` still runs the guard's `Drop` during unwinding
(`ticket_spsc.rs` lines 63-67), which calls `unlock` and releases the lock;
subsequent `lock().unwrap()` calls succeed as if nothing happened. -/

namespace mutex_spsc

/-- The shared state of `mutex_spsc` together with the poison flag of its
`std::sync::Mutex`. -/
structure PInner (T : Type) where
  data : T
  poisoned : Bool
  to_read : Bool

/-- `Inner::write` (`mutex_spsc.rs` lines 31-35) with the poison behavior
of `Mutex::lock().unwrap()`: on a poisoned lock the unwrap panics
(`Except.error ()`), otherwise the cell is overwritten and the flag set. -/
def write_p {T : Type} (value : T) (s : PInner T) : Except Unit (PInner T) :=
  if s.poisoned then Except.error ()
  else Except.ok { data := value, poisoned := s.poisoned, to_read := true }

/-- `Inner::read` (`mutex_spsc.rs` lines 37-46) with the poison behavior:
the unread flag is checked first, outside the lock; only when it is true is
the lock taken, so only then can the poison surface. -/
def read_p {T : Type} (s : PInner T) (value : T) :
    Except Unit (Bool × T × PInner T) :=
  if s.to_read then
    (if s.poisoned then Except.error ()
     else Except.ok (true, s.data, { s with to_read := false }))
  else Except.ok (false, value, s)

/-- A thread terminating abnormally (unwinding) while holding the mutex:
the guard's drop during unwind marks the mutex poisoned; cell and flag stay
as the dead thread left them. -/
def die_holding {T : Type} (s : PInner T) : PInner T :=
  { s with poisoned := true }

end mutex_spsc

namespace ticket_spsc

/-- A thread terminating abnormally (unwinding) while holding the
`TicketGuard`: unwinding runs `TicketGuard::drop` (`ticket_spsc.rs` lines
63-67), i.e. `unlock`, which stores `now_serving + 1` (wrapping); the
`TicketMutex` has no poison state, so nothing else records the failure.
Cell and flag stay as the dead thread left them. -/
def die_holding {T : Type} (s : Inner T) : Inner T :=
  { s with now_serving := (s.now_serving + 1) % U64 }

/-- The state after `new(0)` where the writer acquired the ticket lock
(ticket 0 dispensed, serving 0) and then terminated abnormally before
storing: the unwind released the lock. -/
def afterDie : Inner Nat :=
  die_holding { data := 0, to_read := false, now_serving := 0, next_ticket := 1 }

end ticket_spsc

/-- C7, as stated, is false on the code.  In `ticket_spsc` a holder that
terminates abnormally releases the ticket lock during unwinding (the
guard's `Drop` calls `unlock`) and nothing records the failure: at the
concrete state `afterDie` — the writer died while holding the lock right
after `new(0)` — a subsequent `read` returns `false` normally and a
subsequent `write(7)` completes normally; neither propagates any error or
panic.  And even in `mutex_spsc`, a subsequent `read` that observes the
unread flag false returns `false` without ever touching the poisoned lock,
so it, too, surfaces nothing. -/
theorem abnormal_holder_not_always_surfaced :
    (ticket_spsc.Inner.read ticket_spsc.afterDie 99 =
       some ((false, 99), ticket_spsc.afterDie)) ∧
    (ticket_spsc.Inner.write 7 ticket_spsc.afterDie =
       some { data := 7, to_read := true,
              now_serving := (1 % ticket_spsc.U64 + 1) % ticket_spsc.U64,
              next_ticket := (1 + 1) % ticket_spsc.U64 }) ∧
    (mutex_spsc.read_p
       (mutex_spsc.die_holding
         { data := (0 : Nat), poisoned := false, to_read := false }) 99 =
       Except.ok (false, 99,
         mutex_spsc.die_holding
           { data := (0 : Nat), poisoned := false, to_read := false })) := by
  refine ⟨?_, ?_, ?_⟩
  · rfl
  · rw [ticket_spsc.Inner.write,
      if_pos (show ticket_spsc.afterDie.now_serving =
        ticket_spsc.afterDie.next_ticket by decide)]
    rfl
  · rfl

/-- C7, amended: in `mutex_spsc`, a holder terminating abnormally poisons
the mutex; from any poisoned state every subsequent `write` panics on the
unwrap of the poisoned lock, and every subsequent `read` that observes the
unread flag true panics likewise — the failure is surfaced rather than
stale data delivered — while a read observing the flag false returns
`false` without touching the lock (reporting nothing new, not wrong data).
In `ticket_spsc` the failure is not surfaced at all: the unwind releases
the ticket lock via the guard's drop, and from any state with the lock free
both operations proceed normally. -/
theorem mutex_poison_surfaces_ticket_does_not :
    (∀ (T : Type) (s : mutex_spsc.PInner T) (v out : T), s.poisoned = true →
       ((mutex_spsc.die_holding s).poisoned = true) ∧
       (mutex_spsc.write_p v s = Except.error ()) ∧
       (s.to_read = true → mutex_spsc.read_p s out = Except.error ()) ∧
       (s.to_read = false →
          mutex_spsc.read_p s out = Except.ok (false, out, s))) ∧
    (∀ (T : Type) (s : ticket_spsc.Inner T) (v out : T),
       ((ticket_spsc.die_holding s).now_serving =
          (s.now_serving + 1) % ticket_spsc.U64) ∧
       (s.to_read = false →
          ticket_spsc.Inner.read s out = some ((false, out), s)) ∧
       (s.now_serving = s.next_ticket →
          ∃ s', ticket_spsc.Inner.write v s = some s')) := by
  constructor
  · intro T s v out hp
    refine ⟨rfl, ?_, ?_, ?_⟩
    · rw [mutex_spsc.write_p, if_pos (by rw [hp])]
    · intro ht
      rw [mutex_spsc.read_p, if_pos (by rw [ht]), if_pos (by rw [hp])]
    · intro hf
      rw [mutex_spsc.read_p, if_neg (by rw [hf]; exact Bool.false_ne_true)]
  · intro T s v out
    refine ⟨rfl, ?_, ?_⟩
    · intro hf
      rw [ticket_spsc.Inner.read, if_neg (by rw [hf]; exact Bool.false_ne_true)]
    · intro hl
      exact ⟨_, by rw [ticket_spsc.Inner.write, if_pos hl]⟩

/-- Witness for the amended C7 at concrete inputs: with the poisoned flag
set after a holder died in `mutex_spsc`, a `write(5)` and a flag-true read
surface the failure while a flag-false read returns false; in `ticket_spsc`
the state `afterDie` left by the dead holder serves reads and writes
normally. -/
theorem mutex_poison_surfaces_ticket_does_not_witness :
    (mutex_spsc.write_p 5
       { data := (0 : Nat), poisoned := true, to_read := false } =
       Except.error ()) ∧
    (mutex_spsc.read_p
       { data := (0 : Nat), poisoned := true, to_read := true } 99 =
       Except.error ()) ∧
    (ticket_spsc.Inner.read ticket_spsc.afterDie 99 =
       some ((false, 99), ticket_spsc.afterDie)) ∧
    (∃ s', ticket_spsc.Inner.write 7 ticket_spsc.afterDie = some s') := by
  refine ⟨?_, ?_, ?_, ?_⟩
  · exact (mutex_poison_surfaces_ticket_does_not.1 Nat
      { data := 0, poisoned := true, to_read := false } 5 99 rfl).2.1
  · exact (mutex_poison_surfaces_ticket_does_not.1 Nat
      { data := 0, poisoned := true, to_read := true } 5 99 rfl).2.2.1 rfl
  · exact (mutex_poison_surfaces_ticket_does_not.2 Nat
      ticket_spsc.afterDie 7 99).2.1 rfl
  · exact (mutex_poison_surfaces_ticket_does_not.2 Nat
      ticket_spsc.afterDie 7 99).2.2 rfl

end RustedRazors
